import Mathlib

/-!
# Verification of the edit-docx pipeline (bash-skills-agent)

Shallow embedding of the document-editing scripts under
`src/bash_skills_agent/skills/edit-docx/scripts/`:

* `apply_edits.py`   — table/SDT mutation helpers, mapper, assembler
* `validate_edits.py`— pre-apply validation of edits against analysis
* `repack_docx.py`   — archive repackaging
* `analyze_docx.py`  — analysis entry points used by the identity round trip

XML strings manipulated through `xml.etree.ElementTree` are modelled by the
pair `XmlS` of the raw string together with its parse result (`none` when the
string does not parse).  Namespaced tags such as `{…/main}tr` are written with
their conventional prefixes (`"w:tr"`).  Python integers are `Nat`/`Int`;
Python's `int(w * scale)` over a non-negative float ratio is modelled as
integer floor division.
-/

/-- An `ElementTree` element: tag, attribute list (keys unique, insertion
order), the `.text` field (`none` ≙ Python `None`), and child elements. -/
inductive Xml where
  | mk (tag : String) (attrs : List (String × String)) (text : Option String)
      (children : List Xml)

namespace Xml

def tag : Xml → String
  | .mk t _ _ _ => t

def attrs : Xml → List (String × String)
  | .mk _ a _ _ => a

def text : Xml → Option String
  | .mk _ _ s _ => s

def children : Xml → List Xml
  | .mk _ _ _ c => c

/-- Replace the child list. -/
def withChildren (x : Xml) (c : List Xml) : Xml :=
  .mk x.tag x.attrs x.text c

/-- `elem.get(key)`ₚᵧ: first attribute with the key. -/
def getAttr (x : Xml) (k : String) : Option String :=
  (x.attrs.find? (fun p => p.1 == k)).map Prod.snd

/-- Overwrite-or-append for attribute lists. -/
def setAttrGo (k v : String) : List (String × String) → List (String × String)
  | [] => [(k, v)]
  | (k₀, v₀) :: rest => if k₀ == k then (k, v) :: rest else (k₀, v₀) :: setAttrGo k v rest

/-- `elem.set(key, v)`ₚᵧ: overwrite or append the attribute. -/
def setAttr (x : Xml) (k v : String) : Xml :=
  .mk x.tag (setAttrGo k v x.attrs) x.text x.children

end Xml

/-- Direct children with the given tag — `elem.findall("w:tag")`ₚᵧ. -/
def childTags (t : String) (x : Xml) : List Xml :=
  x.children.filter (fun c => c.tag == t)

/-- First direct child with the tag — `elem.find("w:tag")`ₚᵧ. -/
def findChildTag (t : String) (x : Xml) : Option Xml :=
  x.children.find? (fun c => c.tag == t)

/-- Descendants of the nodes of `l` (each node, then its descendants), in
document order.  `root.findall(".//w:tag")`ₚᵧ filters this by tag. -/
def descList : List Xml → List Xml
  | [] => []
  | Xml.mk t a s cs :: rest => Xml.mk t a s cs :: (descList cs ++ descList rest)

/-- `elem.findall(".//w:tag")`ₚᵧ: descendants with the tag, document order. -/
def descTags (t : String) (x : Xml) : List Xml :=
  (descList x.children).filter (fun c => c.tag == t)

/-- Remove the `n`-th element with the given tag from a child list (the
ElementTree idiom `lst = e.findall(tag); e.remove(lst[n])`; out of range
leaves the list unchanged). -/
def removeNthTagL (t : String) : List Xml → Nat → List Xml
  | [], _ => []
  | c :: rest, n =>
    if c.tag == t then
      match n with
      | 0 => rest
      | n' + 1 => c :: removeNthTagL t rest n'
    else c :: removeNthTagL t rest n

/-- Remove the first direct child with the tag, if any
(`old = e.find(tag); if old is not None: e.remove(old)`ₚᵧ). -/
def removeFirstChildTag (t : String) (x : Xml) : Xml :=
  x.withChildren (removeNthTagL t x.children 0)

/-- Number of direct children with the tag. -/
def countChildTag (t : String) (x : Xml) : Nat :=
  (childTags t x).length

/-- Update (apply `f` to) the `n`-th descendant with the given tag, counting
in document order over a child list; returns the rewritten list and `none`
when the target was found, or `some n'` with the count still to skip. -/
def updNthDescL (t : String) (f : Xml → Xml) : List Xml → Nat → (List Xml × Option Nat)
  | [], n => ([], some n)
  | Xml.mk tg a s cs :: rest, n =>
    if tg == t then
      match n with
      | 0 => (f (Xml.mk tg a s cs) :: rest, none)
      | n' + 1 =>
        match updNthDescL t f cs n' with
        | (cs', none) => (Xml.mk tg a s cs' :: rest, none)
        | (cs', some n'') =>
          match updNthDescL t f rest n'' with
          | (rest', r) => (Xml.mk tg a s cs' :: rest', r)
    else
      match updNthDescL t f cs n with
      | (cs', none) => (Xml.mk tg a s cs' :: rest, none)
      | (cs', some n'') =>
        match updNthDescL t f rest n'' with
        | (rest', r) => (Xml.mk tg a s cs' :: rest', r)

/-- Apply `f` to the `n`-th descendant of `x` (document order) with tag `t`. -/
def updNthDesc (t : String) (f : Xml → Xml) (x : Xml) (n : Nat) : Xml :=
  x.withChildren (updNthDescL t f x.children n).1

/-- Remove the `n`-th descendant with the given tag from its parent, counting
in document order (models locating `findall(".//tag")[n]` and removing the
element from the unique element whose child list contains it). -/
def rmNthDescL (t : String) : List Xml → Nat → (List Xml × Option Nat)
  | [], n => ([], some n)
  | Xml.mk tg a s cs :: rest, n =>
    if tg == t then
      match n with
      | 0 => (rest, none)
      | n' + 1 =>
        match rmNthDescL t cs n' with
        | (cs', none) => (Xml.mk tg a s cs' :: rest, none)
        | (cs', some n'') =>
          match rmNthDescL t rest n'' with
          | (rest', r) => (Xml.mk tg a s cs' :: rest', r)
    else
      match rmNthDescL t cs n with
      | (cs', none) => (Xml.mk tg a s cs' :: rest, none)
      | (cs', some n'') =>
        match rmNthDescL t rest n'' with
        | (rest', r) => (Xml.mk tg a s cs' :: rest', r)

def rmNthDesc (t : String) (x : Xml) (n : Nat) : Xml :=
  x.withChildren (rmNthDescL t x.children n).1

/-- Render an attribute list. -/
def printAttrs : List (String × String) → String
  | [] => ""
  | (k, v) :: rest => " " ++ k ++ "=\"" ++ v ++ "\"" ++ printAttrs rest

/-- Serializer for the element model (models `ET.tostring(e, encoding="unicode")`;
the exact concrete syntax is irrelevant to the theorems below — what matters
is that serializing `t` produces a string whose parse result is `t`). -/
def printXmlL : List Xml → String
  | [] => ""
  | Xml.mk t a s cs :: rest =>
    "<" ++ t ++ printAttrs a ++ ">" ++ (s.getD "") ++ printXmlL cs ++ "</" ++ t ++ ">"
      ++ printXmlL rest

def printXml (x : Xml) : String :=
  printXmlL [x]

/-- A Python XML *string* as the pipeline passes it around: the raw text plus
its `ET.fromstring` parse result (`none` when parsing raises `ParseError`). -/
structure XmlS where
  raw : String
  parsed : Option Xml

/-- `ET.tostring(root, encoding="unicode")`ₚᵧ: the serialized string parses
back to the serialized element. -/
def serialize (t : Xml) : XmlS :=
  ⟨printXml t, some t⟩

/-- Splitting on a (nonempty) separator, fuel-structural so that concrete
evaluation reduces (`str.split(sep)`ₚᵧ / `String.splitOn`). -/
def splitCharsF (sep : List Char) : Nat → List Char → List (List Char)
  | 0, l => [l]
  | _ + 1, [] => [[]]
  | fuel + 1, c :: rest =>
    if sep.isPrefixOf (c :: rest) then
      [] :: splitCharsF sep fuel ((c :: rest).drop sep.length)
    else
      match splitCharsF sep fuel rest with
      | [] => [[c]]
      | chunk :: more => (c :: chunk) :: more

def pySplit (s sep : String) : List String :=
  if sep.toList.isEmpty then [s]
  else (splitCharsF sep.toList (s.toList.length + 1) s.toList).map String.mk

/-- `str.replace(old, new)`ₚᵧ for nonempty `old` (every use site has a
nonempty literal), fuel-structural. -/
def replaceCharsF (old new : List Char) : Nat → List Char → List Char
  | 0, l => l
  | _ + 1, [] => []
  | fuel + 1, c :: rest =>
    if old.isPrefixOf (c :: rest) then
      new ++ replaceCharsF old new fuel ((c :: rest).drop old.length)
    else c :: replaceCharsF old new fuel rest

def pyReplace (s old new : String) : String :=
  if old.toList.isEmpty then s
  else String.mk (replaceCharsF old.toList new.toList (s.toList.length + 1) s.toList)

/-- `str.strip()`ₚᵧ / `String.trim`: drop leading and trailing whitespace. -/
def pyStrip (s : String) : String :=
  String.mk (((s.toList.dropWhile Char.isWhitespace).reverse.dropWhile
    Char.isWhitespace).reverse)

/-- `str.endswith(suffix)`ₚᵧ. -/
def pyEndsWith (s suffix : String) : Bool :=
  suffix.toList.isSuffixOf s.toList

/-- `escape_xml` from `apply_edits.py`. -/
def escape_xml (text : String) : String :=
  pyReplace (pyReplace (pyReplace (pyReplace (pyReplace text "&" "&amp;")
    "<" "&lt;") ">" "&gt;") "\"" "&quot;") "'" "&apos;"

/-- Substring occurrence test (`needle in haystack`ₚᵧ, `needle ≠ ""`). -/
def strContains (s pat : String) : Bool :=
  (pySplit s pat).length != 1

/-- `str.isdigit()`ₚᵧ restricted to ASCII digits. -/
def pyIsDigit (s : String) : Bool :=
  s ≠ "" && s.toList.all Char.isDigit

/-- `int(s)`ₚᵧ on a digit string (0 as a don't-care fallback). -/
def digitsToNat (s : String) : Nat :=
  s.toList.foldl (fun acc c => acc * 10 + (c.toNat - Char.toNat '0')) 0

/-- `max(l, default=d)`ₚᵧ. -/
def pyMaxD (d : Nat) : List Nat → Nat
  | [] => d
  | x :: xs => xs.foldl max x

/-- First index of the maximum — `l.index(max(l))`ₚᵧ (`none` on empty). -/
def idxOfMax (l : List Nat) : Option Nat :=
  match l with
  | [] => none
  | x :: xs => some (List.indexOf (xs.foldl max x) (x :: xs))

/-- Add `d` to the entry at index `i` (`lst[i] += d`ₚᵧ). -/
def addAt : List Int → Nat → Int → List Int
  | [], _, _ => []
  | x :: xs, 0, d => (x + d) :: xs
  | x :: xs, n + 1, d => x :: addAt xs n d

/-! ## Table helpers (`apply_edits.py`) -/

/-- Non-text content markers (`_NON_TEXT_INDICATORS`, `apply_edits.py`). -/
def nonTextIndicators : List String :=
  ["AlternateContent", "<w:drawing", "<w:pict", "<wp:anchor", "<wp:inline",
   "<v:shape", "<v:group"]

/-- `_has_non_text_content(xml_str)`: substring test on the raw string. -/
def _has_non_text_content (xml_str : String) : Bool :=
  nonTextIndicators.any (fun ind => strContains xml_str ind)

/-- `_get_table_total_width(root)`: `tblPr/tblW@w` when it is all digits,
else the 9000 default. -/
def _get_table_total_width (root : Xml) : Nat :=
  match findChildTag "w:tblPr" root with
  | none => 9000
  | some tblPr =>
    match findChildTag "w:tblW" tblPr with
    | none => 9000
    | some tblW =>
      match tblW.getAttr "w:w" with
      | none => 9000
      | some wVal => if wVal ≠ "" && pyIsDigit wVal then digitsToNat wVal else 9000

/-- `_extract_column_widths(tbl_grid, num_cols, total_width)`. -/
def _extract_column_widths (tblGrid : Option Xml) (numCols totalWidth : Nat) :
    List Nat :=
  let gridCols := match tblGrid with
    | some g => childTags "w:gridCol" g
    | none => []
  let defaultWidth := totalWidth / max numCols 1
  (List.range numCols).map fun i =>
    match gridCols[i]? with
    | some gc =>
      match gc.getAttr "w:w" with
      | some wVal => if wVal ≠ "" && pyIsDigit wVal then digitsToNat wVal else defaultWidth
      | none => defaultWidth
    | none => defaultWidth

/-- `_estimate_text_width(text)`: CJK/Hangul/fullwidth count 2, others 1,
minimum 1. -/
def _estimate_text_width (text : String) : Nat :=
  let width := text.toList.foldl
    (fun acc ch =>
      let cp := ch.toNat
      if (0x1100 ≤ cp && cp ≤ 0x11FF) || (0x3000 ≤ cp && cp ≤ 0x9FFF)
          || (0xAC00 ≤ cp && cp ≤ 0xD7AF) || (0xF900 ≤ cp && cp ≤ 0xFAFF)
          || (0xFF01 ≤ cp && cp ≤ 0xFF60) then
        acc + 2
      else acc + 1)
    0
  max width 1

/-- The width arithmetic of `_table_add_column` (`apply_edits.py`
lines 1207–1241): given the table's declared total width, the pre-insertion
`tblGrid` widths, the new column's cell contents and the insertion position,
compute `(all_widths, new_col_width)` — the widths written back into
`tblGrid`/`tcW` and the new column's width.  Python's
`int(w * (remaining / original_total))` (float) is modelled as the integer
floor `w * remaining / original_total`; the conservation theorem below does
not depend on the rounded values. -/
def _table_add_column_plan (total_width : Nat) (original_gc_widths : List Nat)
    (col_contents : List String) (insert_pos : Nat) : List Int × Nat :=
  let min_col_w : Nat := 400
  let new_col_max_chars := pyMaxD 2 (col_contents.map _estimate_text_width)
  let ncw₀ := new_col_max_chars * 200 + 200
  let ncw₁ := max ncw₀ min_col_w
  let ncw₂ := min ncw₁ (total_width * 3 / 10)
  let gcSum := original_gc_widths.sum
  let original_total := if gcSum == 0 then total_width else gcSum
  let remaining₀ := total_width - ncw₂
  let p :=
    if remaining₀ < min_col_w * original_gc_widths.length then
      (total_width * 7 / 10, total_width - total_width * 7 / 10)
    else (remaining₀, ncw₂)
  let remaining := p.1
  let new_col_width := p.2
  let adjusted := original_gc_widths.map
    (fun w => max min_col_w (w * remaining / original_total))
  let rounding_diff : Int := (remaining : Int) - (adjusted.sum : Int)
  let adjustedZ : List Int := adjusted.map Int.ofNat
  let adjusted₂ := match idxOfMax adjusted with
    | none => adjustedZ
    | some i => addAt adjustedZ i rounding_diff
  (adjusted₂.insertIdx insert_pos (new_col_width : Int), new_col_width)

/-- `_table_delete_row(table_xml, r_idx)`. -/
def _table_delete_row (table_xml : XmlS) (r_idx : Nat) : XmlS :=
  match table_xml.parsed with
  | none => table_xml
  | some root =>
    let xml_rows := descTags "w:tr" root
    if r_idx ≥ xml_rows.length then table_xml
    else serialize (rmNthDesc "w:tr" root r_idx)

/-- Remove the `c`-th `w:gridCol` from the first `w:tblGrid` child
(`tbl_grid.remove(grid_cols[c_idx])` of `_table_delete_column`). -/
def dropGridCol (c : Nat) : List Xml → List Xml
  | [] => []
  | g :: rest =>
    if g.tag == "w:tblGrid" then
      g.withChildren (removeNthTagL "w:gridCol" g.children c) :: rest
    else g :: dropGridCol c rest

/-- `_table_delete_column(table_xml, c_idx)`. -/
def _table_delete_column (table_xml : XmlS) (c_idx : Nat) : XmlS :=
  match table_xml.parsed with
  | none => table_xml
  | some root =>
    let xml_rows := childTags "w:tr" root
    if xml_rows.length = 0 then table_xml
    else
      let first_row_cells := childTags "w:tc" (xml_rows.getD 0 (Xml.mk "" [] none []))
      if c_idx ≥ first_row_cells.length then table_xml
      else if first_row_cells.length ≤ 1 then table_xml
      else
        let root' := root.withChildren <| root.children.map fun ch =>
          if ch.tag == "w:tr" then ch.withChildren (removeNthTagL "w:tc" ch.children c_idx)
          else ch
        let root'' :=
          match findChildTag "w:tblGrid" root' with
          | none => root'
          | some _ => root'.withChildren (dropGridCol c_idx root'.children)
        serialize root''

/-- `_table_delete_paragraph(table_xml, row_idx, col_idx, para_idx)` —
the cell-paragraph floor lives here: a cell with a single paragraph is
returned unchanged. -/
def _table_delete_paragraph (table_xml : XmlS) (row_idx col_idx para_idx : Nat) :
    XmlS :=
  match table_xml.parsed with
  | none => table_xml
  | some root =>
    let xml_rows := descTags "w:tr" root
    if row_idx ≥ xml_rows.length then table_xml
    else
      let row := xml_rows.getD row_idx (Xml.mk "" [] none [])
      let xml_cells := descTags "w:tc" row
      if col_idx ≥ xml_cells.length then table_xml
      else
        let target_cell := xml_cells.getD col_idx (Xml.mk "" [] none [])
        let paragraphs := childTags "w:p" target_cell
        if para_idx ≥ paragraphs.length then table_xml
        else if paragraphs.length ≤ 1 then table_xml
        else
          serialize <| updNthDesc "w:tr"
            (fun r => updNthDesc "w:tc"
              (fun c => c.withChildren (removeNthTagL "w:p" c.children para_idx))
              r col_idx)
            root row_idx

/-- `_toc_delete_entry(sdt_xml, p_idx)`. -/
def _toc_delete_entry (sdt_xml : XmlS) (p_idx : Nat) : XmlS :=
  match sdt_xml.parsed with
  | none => sdt_xml
  | some root =>
    match findChildTag "w:sdtContent" root with
    | none => sdt_xml
    | some sdt_content =>
      let paragraphs := childTags "w:p" sdt_content
      if p_idx ≥ paragraphs.length then sdt_xml
      else
        serialize <| root.withChildren <|
          (let rec go : List Xml → List Xml
            | [] => []
            | c :: rest =>
              if c.tag == "w:sdtContent" then
                c.withChildren (removeNthTagL "w:p" c.children p_idx) :: rest
              else c :: go rest
          go root.children)

def Xml.withText (x : Xml) (s : Option String) : Xml :=
  .mk x.tag x.attrs s x.children

/-- Walk a `w:t` list segment setting the first not-yet-set text element to
`txt` (with `xml:space="preserve"` — unconditionally when `attrAlways`, else
only when absent) and clearing every later one, threading the
"first text already set" flag. -/
def setTextsDirect (attrAlways : Bool) (txt : String) :
    List Xml → Bool → (List Xml × Bool)
  | [], b => ([], b)
  | c :: rest, b =>
    if c.tag == "w:t" then
      if b then
        let (rest', b') := setTextsDirect attrAlways txt rest true
        (c.withText (some "") :: rest', b')
      else
        let c₁ := c.withText (some txt)
        let c₂ := if attrAlways || (c₁.getAttr "xml:space").isNone then
            c₁.setAttr "xml:space" "preserve"
          else c₁
        let (rest', b') := setTextsDirect attrAlways txt rest true
        (c₂ :: rest', b')
    else
      let (rest', b') := setTextsDirect attrAlways txt rest b
      (c :: rest', b')

/-- `for run in para.findall("w:r"): for t in run.findall("w:t"): …`ₚᵧ —
direct runs, direct texts. -/
def setTextsInRuns (attrAlways : Bool) (txt : String) :
    List Xml → Bool → (List Xml × Bool)
  | [], b => ([], b)
  | c :: rest, b =>
    if c.tag == "w:r" then
      let (cs', b₁) := setTextsDirect attrAlways txt c.children b
      let (rest', b₂) := setTextsInRuns attrAlways txt rest b₁
      (c.withChildren cs' :: rest', b₂)
    else
      let (rest', b') := setTextsInRuns attrAlways txt rest b
      (c :: rest', b')

/-- Keep every non-run child; apply `f` to the first `w:r`; drop later runs
(`_clone_paragraph_with_text`'s `for run in runs[1:]: new_para.remove(run)`). -/
def keepFirstRunOnly (f : Xml → Xml) : List Xml → List Xml
  | [] => []
  | c :: rest =>
    if c.tag == "w:r" then f c :: rest.filter (fun d => !(d.tag == "w:r"))
    else c :: keepFirstRunOnly f rest

/-- Keep every non-text child of a run; set the first `w:t`; drop later ones. -/
def keepFirstTOnly (escaped : String) : List Xml → List Xml
  | [] => []
  | c :: rest =>
    if c.tag == "w:t" then
      (c.withText (some escaped)).setAttr "xml:space" "preserve"
        :: rest.filter (fun d => !(d.tag == "w:t"))
    else c :: keepFirstTOnly escaped rest

/-- `_clone_paragraph_with_text(source_para, escaped_text)`. -/
def _clone_paragraph_with_text (source_para : Xml) (escaped_text : String) : Xml :=
  let newT : Xml := Xml.mk "w:t" [("xml:space", "preserve")] (some escaped_text) []
  if (childTags "w:r" source_para).isEmpty then
    source_para.withChildren
      (source_para.children ++ [Xml.mk "w:r" [] none [newT]])
  else
    source_para.withChildren <| keepFirstRunOnly
      (fun r0 =>
        if (childTags "w:t" r0).isEmpty then
          r0.withChildren (r0.children ++ [newT])
        else r0.withChildren (keepFirstTOnly escaped_text r0.children))
      source_para.children

/-- Replace the `p`-th direct `w:p` child by the block `f` returns (the
in-place mutation plus the `insert`s of cloned line paragraphs right after
it). -/
def replaceParaInChildren (f : Xml → List Xml) : List Xml → Nat → List Xml
  | [], _ => []
  | c :: rest, p =>
    if c.tag == "w:p" then
      match p with
      | 0 => f c ++ rest
      | p' + 1 => c :: replaceParaInChildren f rest p'
    else c :: replaceParaInChildren f rest p

/-- `_table_replace_paragraph(table_xml, r_idx, c_idx, p_idx, new_text,
run_xmls)` (`run_xmls = []` models Python `None`/empty, both falsy). -/
def _table_replace_paragraph (table_xml : XmlS) (r_idx c_idx p_idx : Nat)
    (new_text : String) (run_xmls : List XmlS) : XmlS :=
  match table_xml.parsed with
  | none => table_xml
  | some root =>
    let xml_rows := descTags "w:tr" root
    if r_idx ≥ xml_rows.length then table_xml
    else
      let row := xml_rows.getD r_idx (Xml.mk "" [] none [])
      let xml_cells := descTags "w:tc" row
      if c_idx ≥ xml_cells.length then table_xml
      else
        let target_cell := xml_cells.getD c_idx (Xml.mk "" [] none [])
        let paragraphs := childTags "w:p" target_cell
        if p_idx ≥ paragraphs.length then table_xml
        else
          let paraF : Xml → List Xml := fun target_para =>
            if !run_xmls.isEmpty then
              [target_para.withChildren
                ((target_para.children.filter (fun d => !(d.tag == "w:r")))
                  ++ run_xmls.filterMap XmlS.parsed)]
            else if strContains new_text "\n" then
              let lines₀ := (pySplit new_text "\n").filter (fun ln => pyStrip ln ≠ "")
              let lines := if lines₀.isEmpty then [""] else lines₀
              let first_escaped := escape_xml (lines.headD "")
              let mutPara := target_para.withChildren
                (setTextsInRuns true first_escaped target_para.children false).1
              mutPara :: lines.tail.map
                (fun ln => _clone_paragraph_with_text mutPara (escape_xml ln))
            else
              [target_para.withChildren
                (setTextsInRuns false (escape_xml new_text)
                  target_para.children false).1]
          serialize <| updNthDesc "w:tr"
            (fun r => updNthDesc "w:tc"
              (fun cell => cell.withChildren
                (replaceParaInChildren paraF cell.children p_idx))
              r c_idx)
            root r_idx

/-- `_apply_row_style(row, row_style_alias, style_alias_map)`: the alias map
value is the `trPr` template string; its first direct `w:tblHeader` child is
stripped before the template is attached at position 0.  On a parse error the
old `trPr` has already been removed and nothing is inserted. -/
def _apply_row_style (row : Xml) (row_style_alias : String)
    (style_alias_map : List (String × XmlS)) : Xml :=
  let tr_pr_xml := ((style_alias_map.find? (fun p => p.1 == row_style_alias)).map
    Prod.snd).getD ⟨"", none⟩
  if tr_pr_xml.raw ≠ "" && pyStrip tr_pr_xml.raw ≠ "" then
    let row₁ := removeFirstChildTag "w:trPr" row
    match tr_pr_xml.parsed with
    | none => row₁
    | some new_trpr =>
      let stripped := removeFirstChildTag "w:tblHeader" new_trpr
      row₁.withChildren (stripped :: row₁.children)
  else row

-- `_replace_text_preserving_structure(original_xml, new_text)` walk:
-- `rtpsL` traverses arbitrary nodes, `rtpsRun` traverses the children of a
-- run (its direct `w:t` children are the ones set/cleared; everything else is
-- walked for nested runs).  The Boolean arguments thread ElementTree's
-- `first_set` flag: for `rtpsRun`, the first is the within-run "a direct
-- `w:t` has already been handled" state, the second the global flag used for
-- nested runs (a run's direct texts are all handled before the walk descends,
-- matching `findall(".//w:r")` + per-run `findall("w:t")`).
mutual

def rtpsL (txt : String) : List Xml → Bool → (List Xml × Bool)
  | [], b => ([], b)
  | Xml.mk tg a s cs :: rest, b =>
    if tg == "w:r" then
      let b' := b || cs.any (fun c => c.tag == "w:t")
      let (cs', b₁) := rtpsRun txt cs b b'
      let (rest', b₂) := rtpsL txt rest b₁
      (Xml.mk tg a s cs' :: rest', b₂)
    else
      let (cs', b₁) := rtpsL txt cs b
      let (rest', b₂) := rtpsL txt rest b₁
      (Xml.mk tg a s cs' :: rest', b₂)

def rtpsRun (txt : String) : List Xml → Bool → Bool → (List Xml × Bool)
  | [], _, nb => ([], nb)
  | Xml.mk tg a s cs :: rest, tb, nb =>
    if tg == "w:t" then
      let base := Xml.mk tg a s cs
      let upd := if tb then base.withText (some "")
        else (base.withText (some txt)).setAttr "xml:space" "preserve"
      let (kids', nb₁) := rtpsL txt cs nb
      let (rest', nb₂) := rtpsRun txt rest true nb₁
      (upd.withChildren kids' :: rest', nb₂)
    else if tg == "w:r" then
      let nb' := nb || cs.any (fun c => c.tag == "w:t")
      let (cs', nb₁) := rtpsRun txt cs nb nb'
      let (rest', nb₂) := rtpsRun txt rest tb nb₁
      (Xml.mk tg a s cs' :: rest', nb₂)
    else
      let (cs', nb₁) := rtpsL txt cs nb
      let (rest', nb₂) := rtpsRun txt rest tb nb₁
      (Xml.mk tg a s cs' :: rest', nb₂)

end

def _replace_text_preserving_structure (original_xml : XmlS) (new_text : String) :
    XmlS :=
  match original_xml.parsed with
  | none => original_xml
  | some root =>
    serialize (root.withChildren (rtpsL new_text root.children false).1)

/-! ## Mapper and paragraph assembly (`apply_edits.py`, Phase A / Phase B) -/

/-- `_ensure_t_space_preserve(run_xml)`: regex pass over `<w:t…>` opening
tags adding `xml:space="preserve"` when missing.  A `<w:t` occurrence opens a
matching tag when followed directly by `>` or by whitespace and then a `>`
(so `<w:tc` does not match). -/
def _ensure_t_space_preserve (run_xml : String) : String :=
  match pySplit run_xml "<w:t" with
  | [] => run_xml
  | first :: rest =>
    first ++ String.join (rest.map fun piece =>
      match piece.toList with
      | '>' :: tail => "<w:t xml:space=\"preserve\">" ++ String.mk tail
      | c :: _ =>
        if c.isWhitespace then
          let tagBody := piece.toList.takeWhile (fun ch => ch ≠ '>')
          let tail := piece.toList.dropWhile (fun ch => ch ≠ '>')
          match tail with
          | [] => "<w:t" ++ piece
          | _ :: after =>
            if strContains ("<w:t" ++ String.mk tagBody ++ ">") "xml:space" then
              "<w:t" ++ piece
            else
              "<w:t" ++ String.mk tagBody ++ " xml:space=\"preserve\">"
                ++ String.mk after
        else "<w:t" ++ piece
      | [] => "<w:t")

/-- A `RunStyleTemplate` as stored in `analysis.json`: run XML with the
literal `\x7b\x7bcontent\x7d\x7d` placeholder. -/
structure RST where
  rpr_xml : String

/-- A `ParagraphStyleTemplate`. -/
structure PST where
  ppr_xml_template : String
  run_style_templates : List (String × RST)

/-- The content placeholder token (written with escapes to keep the literal
braces out of interpolation). -/
def contentSlot : String := "\x7b\x7bcontent\x7d\x7d"

/-- `_build_run_xml_from_template(new_text, run_style_templates)`. -/
def _build_run_xml_from_template (new_text : String)
    (run_style_templates : List (String × RST)) : List String :=
  match run_style_templates with
  | [] => []
  | (_, first_rst) :: _ =>
    if first_rst.rpr_xml = "" then []
    else
      [_ensure_t_space_preserve
        (pyReplace first_rst.rpr_xml contentSlot (escape_xml new_text))]

/-- One entry of an explicit `runs` spec. -/
structure RunSpec where
  text : String
  run_style : String

/-- `_build_run_xmls_from_spec(runs_spec, run_style_templates)`. -/
def _build_run_xmls_from_spec (runs_spec : List RunSpec)
    (run_style_templates : List (String × RST)) : List String :=
  match run_style_templates with
  | [] => []
  | (_, first_rst) :: _ =>
    runs_spec.filterMap fun spec =>
      let rst := ((run_style_templates.find? (fun p => p.1 == spec.run_style)).map
        Prod.snd).getD first_rst
      if rst.rpr_xml = "" then none
      else some (_ensure_t_space_preserve
        (pyReplace rst.rpr_xml contentSlot (escape_xml spec.text)))

/-- The `run_xmls` computation of `generate_new_blocks`'s regular-paragraph
REPLACE branch (`apply_edits.py` lines 329–347): a paragraph whose original
XML carries a non-text marker never gets run XML synthesized. -/
def generate_new_blocks_run_xmls (block_xml : Option XmlS) (new_text : String)
    (edit_rst : List (String × RST)) (pst_rst : List (String × RST))
    (runs_spec : Option (List RunSpec)) : List String :=
  match block_xml with
  | none => []
  | some xmlStr =>
    if new_text ≠ "" then
      if !_has_non_text_content xmlStr.raw then
        let rst := if edit_rst.isEmpty then pst_rst else edit_rst
        if !rst.isEmpty then
          match runs_spec with
          | some spec => _build_run_xmls_from_spec spec rst
          | none => _build_run_xml_from_template new_text rst
        else []
      else []
    else []

/-- The OOXML main namespace URI. -/
def wNs : String :=
  "http://schemas.openxmlformats.org/wordprocessingml/2006/main"

/-- `_append_paragraphs_from_content(body_parts, template, content, ns)` —
returns the appended parts. -/
def _append_paragraphs_from_content (template : PST) (content : String) :
    List String :=
  let ppr := if template.ppr_xml_template ≠ "" then template.ppr_xml_template
    else "<w:pPr xmlns:w=\"" ++ wNs ++ "\"/>"
  let buildPara : String → String := fun text =>
    let escaped := escape_xml text
    let run_xml :=
      match template.run_style_templates with
      | (_, first_rst) :: _ =>
        _ensure_t_space_preserve (pyReplace first_rst.rpr_xml contentSlot escaped)
      | [] =>
        "<w:r xmlns:w=\"" ++ wNs ++ "\"><w:t xml:space=\"preserve\">" ++ escaped
          ++ "</w:t></w:r>"
    "<w:p xmlns:w=\"" ++ wNs ++ "\">" ++ ppr ++ run_xml ++ "</w:p>"
  if strContains content "\n" && !strContains content "|" then
    (((pySplit content "\n")).filter (fun ln => pyStrip ln ≠ "")).map
      (fun ln => buildPara (pyStrip ln))
  else [buildPara content]

/-- The regular-paragraph REPLACE branch of `assemble_document_xml`
(`apply_edits.py` lines 2357–2398): returns the body parts emitted for the
block.  `run_xmls` carries the replacement's pre-assembled run XML strings. -/
def assemble_paragraph_replace (paragraph_style_templates : List (String × PST))
    (block_xml : XmlS) (block_style_key : String) (content : String)
    (run_xmls : List XmlS) : List String :=
  match (paragraph_style_templates.find?
      (fun p => p.1 == block_style_key)).map Prod.snd with
  | none => [block_xml.raw]
  | some template =>
    if _has_non_text_content block_xml.raw then
      [(_replace_text_preserving_structure block_xml content).raw]
    else if !run_xmls.isEmpty then
      let ppr := if template.ppr_xml_template ≠ "" then template.ppr_xml_template
        else "<w:pPr xmlns:w=\"" ++ wNs ++ "\"/>"
      ["<w:p xmlns:w=\"" ++ wNs ++ "\">" ++ ppr
        ++ String.join (run_xmls.map XmlS.raw) ++ "</w:p>"]
    else _append_paragraphs_from_content template content

/-! ## Repackaging (`repack_docx.py`) -/

/-- A ZIP entry's header as `zipfile.ZipInfo` exposes it: the entry name plus
the remaining metadata (timestamps, compression settings, attributes),
abstracted into one field — `writestr(info, …)` passes it through whole. -/
structure ZipInfo where
  filename : String
  metaData : String

/-- One archive entry: header plus (uncompressed) payload bytes. -/
structure ZipEntry where
  info : ZipInfo
  content : List Nat

/-- `filename.endswith((".xml", ".rels"))`ₚᵧ (the basename test is equivalent
to the relative-path test because neither suffix contains a separator). -/
def isXmlOrRels (name : String) : Bool :=
  pyEndsWith name ".xml" || pyEndsWith name ".rels"

/-- The extracted working directory: relative path → file bytes. -/
def diskLookup (disk : List (String × List Nat)) (name : String) :
    Option (List Nat) :=
  (disk.find? (fun p => p.1 == name)).map Prod.snd

/-- Membership of `info.filename` in the `modified_files` set collected from
the working tree (files ending in `.xml`/`.rels`). -/
def inModifiedFiles (disk : List (String × List Nat)) (name : String) : Bool :=
  disk.any (fun p => p.1 == name && isXmlOrRels p.1)

/-- `package_to_docx(original_docx_path, extracted_path, output_path)`:
iterate the original entries in order; entries whose name is a modified
`.xml`/`.rels` file get the on-disk bytes under the original `ZipInfo`;
every other entry is copied as-is. -/
def package_to_docx (orig : List ZipEntry) (disk : List (String × List Nat)) :
    List ZipEntry :=
  orig.map fun e =>
    if inModifiedFiles disk e.info.filename then
      match diskLookup disk e.info.filename with
      | some bytes => { e with content := bytes }
      | none => e
    else e

/-- Overwrite-or-create a file in the working tree. -/
def writeFile (disk : List (String × List Nat)) (name : String)
    (bytes : List Nat) : List (String × List Nat) :=
  if disk.any (fun p => p.1 == name) then
    disk.map (fun p => if p.1 == name then (name, bytes) else p)
  else disk ++ [(name, bytes)]

/-- `extract_docx_xml` (`analyze_docx.py`): write every `.xml`/`.rels` entry's
bytes verbatim into the working tree (later duplicates overwrite). -/
def extract_docx_xml (orig : List ZipEntry) : List (String × List Nat) :=
  orig.foldl
    (fun disk e =>
      if isXmlOrRels e.info.filename then writeFile disk e.info.filename e.content
      else disk)
    []

/-- The `main()` guard of `apply_edits.py` (lines 2587–2590): with an empty
edit list the program prints and exits before reading or writing any
document part; the full apply path (everything after the guard) is abstracted
as `applyFull`. -/
def apply_edits_main {α β : Type} (applyFull : List α → β → β)
    (edits : List α) (tree : β) : β :=
  if edits.isEmpty then tree else applyFull edits tree

/-! ## List numbering (modelled from the spec) -/

/-- Modelled from the spec: the numeral systems of §4.2 Numbering
("decimal; lower/upper alpha; lower/upper roman via subtractive pairs;
literal bullet glyph passthrough").  The list-numbering prefix computation
described by the spec for the analyzer's text representation is not present
in `src/` (`generate_text_merge` emits raw paragraph text only). -/
inductive NumFmt where
  | decimal
  | lowerLetter
  | upperLetter
  | lowerRoman
  | upperRoman
  | bullet (glyph : String)

/-- Modelled from the spec: one numbering level — numeral system plus start
value. -/
structure NumLevel where
  fmt : NumFmt
  start : Nat

/-- Subtractive-pair table for roman numerals. -/
def romanPairs : List (Nat × String) :=
  [(1000, "M"), (900, "CM"), (500, "D"), (400, "CD"), (100, "C"), (90, "XC"),
   (50, "L"), (40, "XL"), (10, "X"), (9, "IX"), (5, "V"), (4, "IV"), (1, "I")]

def romanAux : List (Nat × String) → Nat → String
  | [], _ => ""
  | (v, s) :: rest, n => String.join (List.replicate (n / v) s) ++ romanAux rest (n % v)

/-- Modelled from the spec: upper-roman formatting via subtractive pairs. -/
def upperRomanFmt (n : Nat) : String :=
  romanAux romanPairs n

/-- Modelled from the spec: alpha formatting (`a`…`z`, then doubled). -/
def lowerLetterFmt (n : Nat) : String :=
  if n = 0 then ""
  else String.mk (List.replicate ((n - 1) / 26 + 1)
    (Char.ofNat (Char.toNat 'a' + (n - 1) % 26)))

def upperLetterFmt (n : Nat) : String :=
  if n = 0 then ""
  else String.mk (List.replicate ((n - 1) / 26 + 1)
    (Char.ofNat (Char.toNat 'A' + (n - 1) % 26)))

/-- Modelled from the spec: render one counter value in a level's numeral
system. -/
def formatCounter : NumFmt → Nat → String
  | .decimal, n => toString n
  | .lowerLetter, n => lowerLetterFmt n
  | .upperLetter, n => upperLetterFmt n
  | .lowerRoman, n => (upperRomanFmt n).toLower
  | .upperRoman, n => upperRomanFmt n
  | .bullet g, _ => g

/-- Keep counters at indices `≤ lvl`, reset (to unused) all deeper ones. -/
def resetDeeper (lvl : Nat) : List (Option Nat) → List (Option Nat)
  | [] => []
  | c :: rest =>
    match lvl with
    | 0 => c :: rest.map (fun _ => none)
    | l + 1 => c :: resetDeeper l rest

/-- Modelled from the spec: "per numbering-instance, per-level running
counters increment on use and reset all deeper levels when a
shallower-or-equal level is used"; an unused counter starts at the level's
start value.  Returns the updated counters and the value used. -/
def useLevel (defs : List NumLevel) (counters : List (Option Nat)) (lvl : Nat) :
    List (Option Nat) × Nat :=
  let d := defs.getD lvl ⟨.decimal, 1⟩
  let v := match counters.getD lvl none with
    | none => d.start
    | some c => c + 1
  (resetDeeper lvl (counters.set lvl (some v)), v)

/-- Modelled from the spec: the rendered numbering marker of each list
paragraph of one numbering instance, given the paragraphs' levels in document
order. -/
def renderLevelSeq (defs : List NumLevel) (levels : List Nat) : List String :=
  (levels.foldl
    (fun acc lvl =>
      let r := useLevel defs acc.1 lvl
      (r.1, acc.2 ++ [formatCounter (defs.getD lvl ⟨.decimal, 1⟩).fmt r.2]))
    (List.replicate defs.length (none : Option Nat), ([] : List String))).2

/-! ## Validation (`validate_edits.py`) -/

/-- A `cell_style_aliases` row: the JSON field may hold nested lists or bare
strings (the code branches on `isinstance`). -/
inductive CellAliasRow where
  | strE (s : String)
  | listE (l : List String)

/-- One edit operation as read from `edits.json`; absent JSON fields are the
Python falsy defaults used by every `edit.get(...)` site (`""`, `[]`,
`None`). -/
structure Edit where
  action : String := ""
  target_id : String := ""
  semantic_tag : String := ""
  new_text : String := ""
  style_alias : String := ""
  edit_unit : String := ""
  table_style_alias : String := ""
  row_style_aliases : List String := []
  cell_style_aliases : List CellAliasRow := []
  runs : Option (List RunSpec) := none

/-- One analyzed block as validation reads it from `analysis.json`. -/
structure Block where
  id : String
  type : String := ""
  xml : XmlS := ⟨"", none⟩
  semantic_tag : String := ""
  style_key : String := ""

/-- `_TableMeta`: row count (all `.//w:tr` descendants), per-row direct-cell
counts, per-cell direct-paragraph counts. -/
structure TableMeta where
  row_count : Nat
  col_counts : List Nat
  cell_para_counts : List (List Nat)

def mkTableMeta (root : Xml) : TableMeta :=
  let rows := descTags "w:tr" root
  { row_count := rows.length
    col_counts := rows.map (fun r => (childTags "w:tc" r).length)
    cell_para_counts := rows.map
      (fun r => (childTags "w:tc" r).map (fun c => (childTags "w:p" c).length)) }

/-- `cell_para_counts.get((ri, ci), 0)`ₚᵧ. -/
def TableMeta.paraCount (tm : TableMeta) (ri ci : Nat) : Nat :=
  ((tm.cell_para_counts.getD ri []).getD ci 0)

/-- `_SdtMeta`: paragraph count of the direct `w:sdtContent` child. -/
def mkSdtParaCount (root : Xml) : Nat :=
  match findChildTag "w:sdtContent" root with
  | some content => (childTags "w:p" content).length
  | none => 0

/-- `BlockIndex`: the pre-parsed lookup structures. -/
structure BlockIndex where
  blocks : List Block

def BlockIndex.idLookup (idx : BlockIndex) (bid : String) : Option Block :=
  idx.blocks.find? (fun b => b.id == bid)

/-- `index.table_meta.get(bid)`: present only for `tbl` blocks with nonempty,
parseable XML. -/
def BlockIndex.tableMeta? (idx : BlockIndex) (bid : String) : Option TableMeta :=
  match idx.idLookup bid with
  | some b =>
    if b.type == "tbl" && b.xml.raw ≠ "" then b.xml.parsed.map mkTableMeta else none
  | none => none

def BlockIndex.sdtParaCount? (idx : BlockIndex) (bid : String) : Option Nat :=
  match idx.idLookup bid with
  | some b =>
    if b.type == "sdt" && b.xml.raw ≠ "" then b.xml.parsed.map mkSdtParaCount
    else none
  | none => none

structure Issue where
  edit_index : Nat
  target_id : String
  check : String
  level : String
  message : String

def mkErr (i : Nat) (tid check msg : String) : Issue :=
  ⟨i, tid, check, "error", msg⟩

def mkWarn (i : Nat) (tid check msg : String) : Issue :=
  ⟨i, tid, check, "warning", msg⟩

/-- Parsed `target_id` coordinate (the six anchored patterns of
`validate_edits.py`; `\d` modelled as ASCII digits).  The block-number group
is kept as its digit string because the code rebuilds `bid = f"b{…}"`
textually. -/
inductive Tid where
  | blockT (bs : String)
  | rowT (bs : String) (r : Nat)
  | cellT (bs : String) (r c : Nat)
  | cellParaT (bs : String) (r c p : Nat)
  | colT (bs : String) (c : Nat)
  | sdtParaT (bs : String) (p : Nat)

def digitsVal (l : List Char) : Nat :=
  l.foldl (fun acc c => acc * 10 + (c.toNat - Char.toNat '0')) 0

def parseTid (s : String) : Option Tid :=
  match s.toList with
  | 'b' :: rest =>
    let ds := rest.takeWhile Char.isDigit
    let rest₁ := rest.dropWhile Char.isDigit
    if ds.isEmpty then none
    else
      let bs := String.mk ds
      match rest₁ with
      | [] => some (.blockT bs)
      | ':' :: 'r' :: rest₂ =>
        let rs := rest₂.takeWhile Char.isDigit
        let rest₃ := rest₂.dropWhile Char.isDigit
        if rs.isEmpty then none
        else
          match rest₃ with
          | [] => some (.rowT bs (digitsVal rs))
          | 'c' :: rest₄ =>
            let cs := rest₄.takeWhile Char.isDigit
            let rest₅ := rest₄.dropWhile Char.isDigit
            if cs.isEmpty then none
            else
              match rest₅ with
              | [] => some (.cellT bs (digitsVal rs) (digitsVal cs))
              | 'p' :: rest₆ =>
                let ps := rest₆.takeWhile Char.isDigit
                let rest₇ := rest₆.dropWhile Char.isDigit
                if ps.isEmpty then none
                else
                  match rest₇ with
                  | [] =>
                    some (.cellParaT bs (digitsVal rs) (digitsVal cs) (digitsVal ps))
                  | _ => none
              | _ => none
          | _ => none
      | ':' :: 'c' :: rest₂ =>
        let cs := rest₂.takeWhile Char.isDigit
        let rest₃ := rest₂.dropWhile Char.isDigit
        if cs.isEmpty then none
        else
          match rest₃ with
          | [] => some (.colT bs (digitsVal cs))
          | _ => none
      | ':' :: 'p' :: rest₂ =>
        let ps := rest₂.takeWhile Char.isDigit
        let rest₃ := rest₂.dropWhile Char.isDigit
        if ps.isEmpty then none
        else
          match rest₃ with
          | [] => some (.sdtParaT bs (digitsVal ps))
          | _ => none
      | _ => none
  | _ => none

/-- The issues `validate_target_ids` produces for one edit. -/
def issuesForTargetId (idx : BlockIndex) (i : Nat) (edit : Edit) : List Issue :=
  let tid := edit.target_id
  let action := edit.action
  match parseTid tid with
  | some (.blockT bs) =>
    let bid := "b" ++ bs
    if (idx.idLookup bid).isNone then
      [mkErr i tid "target_id" ("Block " ++ bid ++ " does not exist")]
    else []
  | some (.rowT bs r) =>
    let bid := "b" ++ bs
    if (idx.idLookup bid).isNone then
      [mkErr i tid "target_id" ("Block " ++ bid ++ " does not exist")]
    else
      match idx.tableMeta? bid with
      | none => [mkErr i tid "target_id" (bid ++ " is not a table")]
      | some tm =>
        if action == "delete" && r ≥ tm.row_count then
          [mkErr i tid "target_id" ("Row " ++ toString r ++ " out of range")]
        else if action != "insert_after" && action != "insert_before"
            && r ≥ tm.row_count then
          [mkErr i tid "target_id" ("Row " ++ toString r ++ " out of range")]
        else []
  | some (.cellT bs r c) =>
    let bid := "b" ++ bs
    match idx.tableMeta? bid with
    | none => [mkErr i tid "target_id" (bid ++ " is not a table")]
    | some tm =>
      if r ≥ tm.row_count then
        [mkErr i tid "target_id" ("Row " ++ toString r ++ " out of range")]
      else if c ≥ tm.col_counts.getD r 0 then
        [mkErr i tid "target_id" ("Col " ++ toString c ++ " out of range in row "
          ++ toString r)]
      else []
  | some (.cellParaT bs r c p) =>
    let bid := "b" ++ bs
    match idx.tableMeta? bid with
    | none => [mkErr i tid "target_id" (bid ++ " is not a table")]
    | some tm =>
      if r ≥ tm.row_count then
        [mkErr i tid "target_id" ("Row " ++ toString r ++ " out of range")]
      else if c ≥ tm.col_counts.getD r 0 then
        [mkErr i tid "target_id" ("Col " ++ toString c ++ " out of range in row "
          ++ toString r)]
      else if p ≥ tm.paraCount r c then
        [mkErr i tid "target_id" ("Para " ++ toString p ++ " out of range in cell ("
          ++ toString r ++ "," ++ toString c ++ ")")]
      else []
  | some (.colT bs c) =>
    let bid := "b" ++ bs
    match idx.tableMeta? bid with
    | none => [mkErr i tid "target_id" (bid ++ " is not a table")]
    | some tm =>
      let first_row_cols := tm.col_counts.headD 0
      if action == "delete" && c ≥ first_row_cols then
        [mkErr i tid "target_id" ("Col " ++ toString c ++ " out of range")]
      else []
  | some (.sdtParaT bs p) =>
    let bid := "b" ++ bs
    if (idx.idLookup bid).isNone then
      [mkErr i tid "target_id" ("Block " ++ bid ++ " does not exist")]
    else
      match idx.sdtParaCount? bid with
      | none => [mkErr i tid "target_id" (bid ++ " is not an SDT/TOC block")]
      | some pc =>
        if p ≥ pc then
          [mkErr i tid "target_id" ("Para " ++ toString p ++ " out of range")]
        else []
  | none => [mkErr i tid "target_id" ("Unrecognised target_id format: " ++ tid)]

def validate_target_ids (edits : List Edit) (idx : BlockIndex) : List Issue :=
  (edits.enum.map (fun p => issuesForTargetId idx p.1 p.2)).flatten

def PARAGRAPH_TAGS : List String :=
  ["H1", "H2", "H3", "BODY", "LIST", "TITLE", "SUBTITLE", "OTHER"]

def TABLE_TAG : String := "TBL"

/-- `validate_semantic_tags(edits, index)`. -/
def validate_semantic_tags (edits : List Edit) (idx : BlockIndex) : List Issue :=
  (edits.enum.map (fun q =>
    let i := q.1
    let edit := q.2
    if edit.action != "replace" && edit.action != "delete" then []
    else
      match parseTid edit.target_id with
      | some (.blockT bs) =>
        match idx.idLookup ("b" ++ bs) with
        | none => []
        | some block =>
          if block.semantic_tag ≠ "" && edit.semantic_tag ≠ ""
              && block.semantic_tag ≠ edit.semantic_tag then
            [mkWarn i edit.target_id "semantic_tag"
              ("Edit tag differs from block tag " ++ block.semantic_tag)]
          else []
      | _ => [])).flatten

/-- `validate_style_aliases(edits, alias_map)` — alias-map keys are the short
tokens; values are the raw template payloads (style key strings or trPr/tc
XML). -/
def validate_style_aliases (edits : List Edit)
    (alias_map : List (String × XmlS)) : List Issue :=
  let keyMem := fun (k : String) => alias_map.any (fun p => p.1 == k)
  (edits.enum.map (fun q =>
    let i := q.1
    let edit := q.2
    if edit.action == "delete" then []
    else
      let paraIssues :=
        if PARAGRAPH_TAGS.contains edit.semantic_tag then
          if edit.style_alias ≠ "" && !keyMem edit.style_alias then
            [mkErr i edit.target_id "style_alias"
              ("Style alias " ++ edit.style_alias ++ " not in alias map")]
          else []
        else []
      let tblIssues :=
        if edit.semantic_tag == TABLE_TAG then
          (if edit.table_style_alias ≠ "" && !keyMem edit.table_style_alias then
            [mkErr i edit.target_id "table_style_alias"
              ("Table style alias " ++ edit.table_style_alias ++ " not in alias map")]
          else [])
          ++ (edit.row_style_aliases.filterMap (fun rs =>
            if !keyMem rs then
              some (mkErr i edit.target_id "row_style_alias"
                ("Row style alias " ++ rs ++ " not in alias map"))
            else none))
          ++ ((edit.cell_style_aliases.map (fun row =>
            match row with
            | .listE l => l.filterMap (fun cs =>
                if !keyMem cs then
                  some (mkErr i edit.target_id "cell_style_alias"
                    ("Cell style alias " ++ cs ++ " not in alias map"))
                else none)
            | .strE cs =>
                if !keyMem cs then
                  [mkErr i edit.target_id "cell_style_alias"
                    ("Cell style alias " ++ cs ++ " not in alias map")]
                else [])).flatten)
        else []
      paraIssues ++ tblIssues)).flatten

/-- `validate_table_fields(edits, index)`. -/
def validate_table_fields (edits : List Edit) (_idx : BlockIndex) : List Issue :=
  (edits.enum.map (fun q =>
    let i := q.1
    let edit := q.2
    let tid := edit.target_id
    let eu := edit.edit_unit
    let action := edit.action
    if edit.semantic_tag != TABLE_TAG then []
    else if action == "delete" && eu == "" then []
    else
      let unitIssues :=
        if eu == "" && action != "delete" then
          match parseTid tid with
          | some (.blockT _) => []
          | _ => [mkErr i tid "edit_unit" "edit_unit required for table edits"]
        else []
      let rowInsertIssues :=
        if eu == "row" && (action == "insert_after" || action == "insert_before") then
          (if edit.row_style_aliases.isEmpty then
            [mkErr i tid "row_style_aliases" "row_style_aliases required for row INSERT"]
          else [])
          ++ (if edit.cell_style_aliases.isEmpty then
            [mkErr i tid "cell_style_aliases" "cell_style_aliases required for row INSERT"]
          else [])
        else []
      let tblInsertIssues :=
        if eu == "table" && (action == "insert_after" || action == "insert_before") then
          if edit.table_style_alias == "" then
            [mkErr i tid "table_style_alias" "table_style_alias required for table INSERT"]
          else []
        else []
      let cellCountIssues :=
        if eu == "row" && (action == "insert_after" || action == "insert_before") then
          if edit.new_text ≠ "" && strContains edit.new_text "|" then
            let cell_count := (pySplit edit.new_text "|").length
            match edit.cell_style_aliases with
            | .listE l :: _ =>
              if cell_count ≠ l.length then
                [mkErr i tid "cell_count" "new_text cell count mismatch"]
              else []
            | _ => []
          else []
        else []
      unitIssues ++ rowInsertIssues ++ tblInsertIssues ++ cellCountIssues)).flatten

/-- `validate_newlines(edits)`. -/
def validate_newlines (edits : List Edit) : List Issue :=
  (edits.enum.map (fun q =>
    let i := q.1
    let edit := q.2
    if edit.action == "delete" || edit.new_text == "" then []
    else if edit.semantic_tag == TABLE_TAG then []
    else if strContains edit.new_text "\n" then
      [mkErr i edit.target_id "newline"
        "new_text contains a line break - split into separate edits"]
    else [])).flatten

/-- `validate_column_counts(edits, index)`. -/
def validate_column_counts (edits : List Edit) (idx : BlockIndex) : List Issue :=
  (edits.enum.map (fun q =>
    let i := q.1
    let edit := q.2
    if edit.edit_unit != "row"
        || (edit.action != "insert_after" && edit.action != "insert_before") then []
    else if edit.new_text == "" || !strContains edit.new_text "|" then []
    else
      let bs? := match parseTid edit.target_id with
        | some (.rowT bs _) => some bs
        | some (.blockT bs) => some bs
        | _ => none
      match bs? with
      | none => []
      | some bs =>
        match idx.tableMeta? ("b" ++ bs) with
        | none => []
        | some tm =>
          if tm.col_counts.isEmpty then []
          else
            let text_cols := (pySplit edit.new_text "|").length
            let table_cols := tm.col_counts.headD 0
            if text_cols ≠ table_cols then
              [mkWarn i edit.target_id "column_count" "cell count differs from table width"]
            else [])).flatten

/-- `validate_runs(edits, alias_map, paragraph_style_templates)` — the alias
map value's raw string is the style key used for the PST lookup. -/
def validate_runs (edits : List Edit) (alias_map : List (String × XmlS))
    (paragraph_style_templates : List (String × PST)) : List Issue :=
  (edits.enum.map (fun q =>
    let i := q.1
    let edit := q.2
    match edit.runs with
    | none => []
    | some runs_spec =>
      if runs_spec.isEmpty then []
      else
        let style_key :=
          (((alias_map.find? (fun p => p.1 == edit.style_alias)).map
            (fun p => p.2.raw)).getD "")
        let rst_dict :=
          (((paragraph_style_templates.find? (fun p => p.1 == style_key)).map
            (fun p => p.2.run_style_templates)).getD [])
        let aliasIssues := runs_spec.filterMap (fun spec =>
          if spec.run_style ≠ "" && !rst_dict.isEmpty
              && !rst_dict.any (fun p => p.1 == spec.run_style) then
            some (mkErr i edit.target_id "runs"
              ("run_style " ++ spec.run_style ++ " not found in RST pool"))
          else none)
        let concat := String.join (runs_spec.map RunSpec.text)
        let sumIssues :=
          if concat ≠ edit.new_text then
            [mkWarn i edit.target_id "runs"
              "Concatenated runs text does not match new_text"]
          else []
        aliasIssues ++ sumIssues)).flatten

/-- The analysis artifact as validation reads it. -/
structure Analysis where
  blocks : List Block
  style_alias_map : List (String × XmlS) := []
  paragraph_style_templates : List (String × PST) := []

structure VResult where
  valid : Bool
  errors : List Issue
  warnings : List Issue

/-- `validate(work_dir)` (pure part): run all validators, split by level,
`valid ⇔ no errors`. -/
def validate (analysis : Analysis) (edits : List Edit) : VResult :=
  let idx : BlockIndex := ⟨analysis.blocks⟩
  let all_issues :=
    validate_target_ids edits idx
    ++ validate_semantic_tags edits idx
    ++ validate_style_aliases edits analysis.style_alias_map
    ++ validate_table_fields edits idx
    ++ validate_newlines edits
    ++ validate_column_counts edits idx
    ++ validate_runs edits analysis.style_alias_map
        analysis.paragraph_style_templates
  let errors := all_issues.filter (fun iss => iss.level != "warning")
  let warnings := all_issues.filter (fun iss => iss.level == "warning")
  { valid := errors.isEmpty, errors := errors, warnings := warnings }

/-! ## Assembly (`apply_edits.py`, Phase B) -/

/-- Stable insertion sort (Python `sorted` is stable; descending sorts pass
`le := fun a b => key b ≤ key a`). -/
def insOne {α : Type} (le : α → α → Bool) (a : α) : List α → List α
  | [] => [a]
  | b :: rest => if le a b then a :: b :: rest else b :: insOne le a rest

def insSortLe {α : Type} (le : α → α → Bool) : List α → List α
  | [] => []
  | a :: rest => insOne le a (insSortLe le rest)

/-- One `_replacements` entry attached by `apply_mapping_to_blocks`. -/
structure Replacement where
  style_key : String := ""
  content : String := ""
  original_target_id : String := ""
  edit_unit : String := ""
  run_xmls : List XmlS := []
  toc_level_alias : String := ""
  anchor_block_id : String := ""
  row_style_aliases : List String := []
  cell_style_aliases : List CellAliasRow := []

/-- One `_inserts_before`/`_inserts_after` entry. -/
structure InsertSpec where
  style_key : String := ""
  content : String := ""
  original_target_id : String := ""
  edit_unit : String := ""
  row_style_aliases : List String := []
  cell_style_aliases : List CellAliasRow := []

structure ColInsert where
  col_idx : Nat
  content : String := ""
  original_target_id : String := ""
  cell_style_aliases : List String := []
  style_key : String := ""

structure ParaDeletion where
  row_idx : Nat
  col_idx : Nat
  para_idx : Nat

structure SdtInsert where
  para_idx : Nat
  content : String := ""
  toc_level_alias : String := ""
  anchor_block_id : String := ""
  ins_after : Bool := true
  ins_order : Nat := 0

/-- A block as `assemble_document_xml` walks it: analysis fields plus the
edit markers `apply_mapping_to_blocks` attaches; an absent marker is the
falsy default of the corresponding `block.get(...)`, and `replacements =
none` models the `"_replacements" in block` key test. -/
structure MBlock where
  id : String
  type : String := ""
  xml : XmlS := ⟨"", none⟩
  style_key : String := ""
  deleted : Bool := false
  replaced : Bool := false
  replacements : Option (List Replacement) := none
  inserts_before : List InsertSpec := []
  inserts_after : List InsertSpec := []
  row_deletions : List Nat := []
  col_deletions : List Nat := []
  para_deletions : List ParaDeletion := []
  col_inserts_after : List ColInsert := []
  col_inserts_before : List ColInsert := []
  sdt_entry_deletions : List Nat := []
  sdt_entry_inserts : List SdtInsert := []

/-- The renderers `assemble_document_xml` calls whose bodies are not needed
by the theorems below; they are taken as parameters of the assembly
function (body parts are the raw XML strings the Python code appends). -/
structure Renderers where
  build_block_xml : InsertSpec → Option String
  table_add_row : String → Nat → List String → String → List String → String → String
  table_add_column_s : XmlS → Int → List String → List String → XmlS
  table_insert_column_paragraph : XmlS → Nat → List String → String → XmlS
  toc_replace_entry : XmlS → Nat → String → String → Option String → XmlS
  toc_insert_entry : XmlS → Nat → String → String → Bool → Option String → XmlS
  inject_bookmark : String → String → Nat → String

/-- `re.match(r"b\d+:r(\d+)$", s)`: anchored row coordinate. -/
def matchRowAnchored (s : String) : Option Nat :=
  match parseTid s with
  | some (.rowT _ r) => some r
  | _ => none

/-- `re.match(r"b\d+:r(\d+)c(\d+)p(\d+)", s)`: *prefix* cell-paragraph
coordinate (the pattern is not `$`-anchored, so trailing text is allowed). -/
def matchCellParaLoose (s : String) : Option (Nat × Nat × Nat) :=
  match s.toList with
  | 'b' :: rest =>
    let ds := rest.takeWhile Char.isDigit
    let rest₁ := rest.dropWhile Char.isDigit
    if ds.isEmpty then none
    else
      match rest₁ with
      | ':' :: 'r' :: rest₂ =>
        let rs := rest₂.takeWhile Char.isDigit
        let rest₃ := rest₂.dropWhile Char.isDigit
        if rs.isEmpty then none
        else
          match rest₃ with
          | 'c' :: rest₄ =>
            let cs := rest₄.takeWhile Char.isDigit
            let rest₅ := rest₄.dropWhile Char.isDigit
            if cs.isEmpty then none
            else
              match rest₅ with
              | 'p' :: rest₆ =>
                let ps := rest₆.takeWhile Char.isDigit
                if ps.isEmpty then none
                else some (digitsVal rs, digitsVal cs, digitsVal ps)
              | _ => none
          | _ => none
      | _ => none
  | _ => none

/-- `re.search(r":p(\d+)$", s)`: digits at the very end preceded by `:p`. -/
def matchSdtParaSuffix (s : String) : Option Nat :=
  match s.toList.reverse with
  | [] => none
  | cs =>
    let dsRev := cs.takeWhile Char.isDigit
    let rest := cs.dropWhile Char.isDigit
    if dsRev.isEmpty then none
    else
      match rest with
      | 'p' :: ':' :: _ => some (digitsVal dsRev.reverse)
      | _ => none

/-- `re.search(r"r(\d+)", s)`: first `r` followed by at least one digit. -/
def searchRDigits : List Char → Option Nat
  | [] => none
  | 'r' :: rest =>
    let ds := rest.takeWhile Char.isDigit
    if ds.isEmpty then searchRDigits rest else some (digitsVal ds)
  | _ :: rest => searchRDigits rest

/-- `f"_Toc{n:08d}"`ₚᵧ. -/
def pad8 (n : Nat) : String :=
  let s := toString n
  "_Toc" ++ String.mk (List.replicate (8 - s.length) '0') ++ s

/-- Set-or-overwrite in an association list (Python dict assignment). -/
def assocSet {β : Type} (l : List (String × β)) (k : String) (v : β) :
    List (String × β) :=
  if l.any (fun p => p.1 == k) then
    l.map (fun p => if p.1 == k then (k, v) else p)
  else l ++ [(k, v)]

/-- Preorder walk setting every descendant `w:t` text: first one (flag
`false`) gets `txt`, the rest get `""` (the whole-row replacement loop of
`assemble_document_xml`, which touches `t.text` only). -/
def setDescTexts (txt : String) : List Xml → Bool → (List Xml × Bool)
  | [], b => ([], b)
  | Xml.mk tg a s cs :: rest, b =>
    if tg == "w:t" then
      let s' := if b then some "" else some txt
      let (cs', b₂) := setDescTexts txt cs true
      let (rest', b₃) := setDescTexts txt rest b₂
      (Xml.mk tg a s' cs' :: rest', b₃)
    else
      let (cs', b₁) := setDescTexts txt cs b
      let (rest', b₂) := setDescTexts txt rest b₁
      (Xml.mk tg a s cs' :: rest', b₂)

/-- Per-cell text substitution of the whole-row replacement: the `ci`-th
direct `w:tc` gets `row_contents[ci]` (default `""`). -/
def updateRowCells (row_contents : List String) : List Xml → Nat → List Xml
  | [], _ => []
  | c :: rest, ci =>
    if c.tag == "w:tc" then
      c.withChildren (setDescTexts (row_contents.getD ci "") c.children false).1
        :: updateRowCells row_contents rest (ci + 1)
    else c :: updateRowCells row_contents rest ci

/-- The inline whole-row text replacement of `assemble_document_xml`
(lines 2274–2295); note the code reserializes even when the row index is out
of range, and leaves the string untouched only on a parse error. -/
def assembleRowTextReplace (current : XmlS) (r_idx : Nat)
    (row_contents : List String) : XmlS :=
  match current.parsed with
  | none => current
  | some root =>
    let xml_rows := descTags "w:tr" root
    if r_idx < xml_rows.length then
      serialize (updNthDesc "w:tr"
        (fun row => row.withChildren (updateRowCells row_contents row.children 0))
        root r_idx)
    else serialize root

/-- Assembly accumulator: body parts (raw strings), the block-id → part index
map, pending bookmark requests and the bookmark counter. -/
structure AsmState where
  body_parts : List String := []
  parts_idx : List (String × Nat) := []
  pending_bookmarks : List (String × String) := []
  bookmark_counter : Nat := 0

/-- Emit the parts of one `_inserts_before`/normal block-level insertion
(newline-but-no-pipe content becomes one paragraph per non-blank stripped
line). -/
def emitInsert (R : Renderers) (insert : InsertSpec) : List String :=
  if strContains insert.content "\n" && !strContains insert.content "|" then
    (((pySplit insert.content "\n").map pyStrip).filter (fun ln => ln ≠ "")).filterMap
      (fun line => R.build_block_xml { insert with content := line })
  else
    match R.build_block_xml insert with
    | some xml => [xml]
    | none => []

/-- The table-replace branch body (row deletions, column deletions,
cell-paragraph deletions, column inserts, then replacements). -/
def assembleTableBlock (R : Renderers) (block : MBlock)
    (replacements : List Replacement) : String :=
  let afterRowDel := (insSortLe (fun a b => b ≤ a) block.row_deletions).foldl
    _table_delete_row block.xml
  let afterColDel := (insSortLe (fun a b => b ≤ a) block.col_deletions).foldl
    _table_delete_column afterRowDel
  let pdKey : ParaDeletion → Nat × Nat × Nat := fun pd => (pd.row_idx, pd.col_idx, pd.para_idx)
  let pdLe : ParaDeletion → ParaDeletion → Bool := fun a b =>
    decide (pdKey b ≤ pdKey a)
  let afterParaDel := (insSortLe pdLe block.para_deletions).foldl
    (fun cur pd => _table_delete_paragraph cur pd.row_idx pd.col_idx pd.para_idx)
    afterColDel
  let doColInsert : XmlS → ColInsert → Int → XmlS := fun cur ins after_idx =>
    let col_contents := if ins.content ≠ "" then
        (pySplit ins.content "\n").map pyStrip
      else []
    if !ins.cell_style_aliases.isEmpty then
      R.table_add_column_s cur after_idx col_contents ins.cell_style_aliases
    else
      R.table_insert_column_paragraph cur (Int.toNat (max 0 after_idx)) col_contents
        ins.style_key
  let afterColInsA := (insSortLe (fun (a b : ColInsert) => a.col_idx ≤ b.col_idx)
      block.col_inserts_after).foldl
    (fun cur ins => doColInsert cur ins (Int.ofNat ins.col_idx)) afterParaDel
  let afterColInsB := (insSortLe (fun (a b : ColInsert) => a.col_idx ≤ b.col_idx)
      block.col_inserts_before).foldl
    (fun cur ins => doColInsert cur ins ((Int.ofNat ins.col_idx) - 1)) afterColInsA
  let afterRepl := replacements.foldl
    (fun cur repl =>
      match matchCellParaLoose repl.original_target_id with
      | some (r, c, p) =>
        _table_replace_paragraph cur r c p repl.content repl.run_xmls
      | none =>
        match matchRowAnchored repl.original_target_id with
        | some r =>
          let row_contents := if repl.content ≠ "" then
              (pySplit repl.content "|").map pyStrip
            else []
          assembleRowTextReplace cur r row_contents
        | none => cur)
    afterColInsB
  afterRepl.raw

/-- The SDT/TOC-replace branch body; the bookmark bookkeeping is threaded. -/
def assembleSdtBlock (R : Renderers) (block : MBlock)
    (replacements : List Replacement) (st : AsmState) : String × AsmState :=
  let afterDel := (insSortLe (fun a b => b ≤ a) block.sdt_entry_deletions).foldl
    _toc_delete_entry block.xml
  let stepRepl : (XmlS × AsmState) → Replacement → (XmlS × AsmState) :=
    fun acc repl =>
      match matchSdtParaSuffix repl.original_target_id with
      | none => acc
      | some p =>
        let (anchor?, st') :=
          if repl.anchor_block_id ≠ "" then
            (some (pad8 acc.2.bookmark_counter),
             { acc.2 with
               pending_bookmarks := assocSet acc.2.pending_bookmarks
                 repl.anchor_block_id (pad8 acc.2.bookmark_counter)
               bookmark_counter := acc.2.bookmark_counter + 1 })
          else (none, acc.2)
        (R.toc_replace_entry acc.1 p repl.content repl.toc_level_alias anchor?, st')
  let afterRepl := replacements.foldl stepRepl (afterDel, st)
  let insLe : SdtInsert → SdtInsert → Bool := fun a b =>
    decide ((b.para_idx, b.ins_order) ≤ (a.para_idx, a.ins_order))
  let stepIns : (XmlS × AsmState) → SdtInsert → (XmlS × AsmState) :=
    fun acc ins =>
      let (anchor?, st') :=
        if ins.anchor_block_id ≠ "" then
          (some (pad8 acc.2.bookmark_counter),
           { acc.2 with
             pending_bookmarks := assocSet acc.2.pending_bookmarks
               ins.anchor_block_id (pad8 acc.2.bookmark_counter)
             bookmark_counter := acc.2.bookmark_counter + 1 })
        else (none, acc.2)
      (R.toc_insert_entry acc.1 ins.para_idx ins.content ins.toc_level_alias
        ins.ins_after anchor?, st')
  let afterIns := (insSortLe insLe block.sdt_entry_inserts).foldl stepIns afterRepl
  (afterIns.1.raw, afterIns.2)

/-- Whether a paragraph's `_inserts_after` entry is a row-level insert. -/
def isRowAdd (insert : InsertSpec) : Bool :=
  if insert.edit_unit ≠ "" then insert.edit_unit == "row"
  else (matchRowAnchored insert.original_target_id).isSome

/-- Handle one `_inserts_after` entry (row adds mutate the last emitted
part in place; cell-paragraph targets are ignored; anything else is a normal
block insertion). -/
def emitInsertAfter (R : Renderers) (st : AsmState) (insert : InsertSpec) :
    AsmState :=
  if isRowAdd insert then
    let rIdx? :=
      match matchRowAnchored insert.original_target_id with
      | some r => some r
      | none => searchRDigits insert.original_target_id.toList
    match rIdx? with
    | none => st
    | some r_idx =>
      let row_contents := if insert.content ≠ "" then
          (pySplit insert.content "|").map pyStrip
        else []
      let cell_style_aliases :=
        match insert.cell_style_aliases.head? with
        | some (.listE l) => l
        | some (.strE s) => if s = "" then [] else [s]
        | none => []
      if !cell_style_aliases.isEmpty && !st.body_parts.isEmpty then
        let lastPart := st.body_parts.getLastD ""
        let row_style_alias := insert.row_style_aliases.headD ""
        let modified := R.table_add_row lastPart r_idx row_contents
          row_style_alias cell_style_aliases ""
        { st with body_parts := st.body_parts.dropLast ++ [modified] }
      else st
  else if (matchCellParaLoose insert.original_target_id).isSome then st
  else
    { st with body_parts := st.body_parts ++ emitInsert R insert }

/-- One iteration of the main loop of `assemble_document_xml`. -/
def renderBlock (R : Renderers) (paragraph_style_templates : List (String × PST))
    (st : AsmState) (block : MBlock) : AsmState :=
  if block.deleted then st
  else
    let st₁ := { st with
      body_parts := st.body_parts
        ++ (block.inserts_before.map (emitInsert R)).flatten }
    let afterMain : AsmState × Bool :=
      match block.replaced, block.replacements with
      | true, some replacements =>
        if block.type == "tbl" then
          ({ st₁ with body_parts := st₁.body_parts
              ++ [assembleTableBlock R block replacements] }, true)
        else if block.type == "sdt" then
          let (part, st₂) := assembleSdtBlock R block replacements st₁
          ({ st₂ with body_parts := st₂.body_parts ++ [part] }, true)
        else
          let st₂ := { st₁ with
            parts_idx := assocSet st₁.parts_idx block.id st₁.body_parts.length }
          let replacement := replacements.headD {}
          let parts := assemble_paragraph_replace paragraph_style_templates
            block.xml block.style_key replacement.content replacement.run_xmls
          let st₃ := { st₂ with body_parts := st₂.body_parts ++ parts }
          -- the missing-style-key path `continue`s, skipping _inserts_after
          if (paragraph_style_templates.find?
              (fun p => p.1 == block.style_key)).isNone then (st₃, false)
          else (st₃, true)
      | _, _ =>
        ({ st₁ with
            parts_idx := assocSet st₁.parts_idx block.id st₁.body_parts.length
            body_parts := st₁.body_parts ++ [block.xml.raw] }, true)
    if afterMain.2 then
      block.inserts_after.foldl (emitInsertAfter R) afterMain.1
    else afterMain.1

/-- The bookmark post-pass. -/
def injectPending (R : Renderers) (st : AsmState) : AsmState :=
  st.pending_bookmarks.foldl
    (fun acc pb =>
      match acc.parts_idx.find? (fun p => p.1 == pb.1) with
      | none => acc
      | some (_, idx) =>
        if idx < acc.body_parts.length then
          { acc with
            body_parts := acc.body_parts.set idx
              (R.inject_bookmark (acc.body_parts.getD idx "") pb.2
                acc.bookmark_counter)
            bookmark_counter := acc.bookmark_counter + 1 }
        else acc)
    st

/-- `assemble_document_xml(blocks, …)`: walk the marked blocks, then inject
pending bookmarks, then join the body parts. -/
def assemble_document_xml (R : Renderers)
    (paragraph_style_templates : List (String × PST)) (blocks : List MBlock) :
    String :=
  let st := blocks.foldl (renderBlock R paragraph_style_templates) {}
  String.join (injectPending R st).body_parts

/-! ## Shared lemmas -/

theorem getD_map_const_none {α : Type} (l : List α) (i : Nat) :
    (l.map (fun _ => (none : Option Nat))).getD i none = none := by
  induction l generalizing i with
  | nil => simp [List.getD]
  | cons a rest ih =>
    cases i with
    | zero => simp [List.getD]
    | succ j => simp [List.getD]

theorem resetDeeper_getD_none (l : List (Option Nat)) :
    ∀ lvl k, lvl < k → (resetDeeper lvl l).getD k none = none := by
  induction l with
  | nil => intro lvl k _; simp [resetDeeper, List.getD]
  | cons c rest ih =>
    intro lvl k hk
    cases lvl with
    | zero =>
      cases k with
      | zero => omega
      | succ j =>
        simp only [resetDeeper, List.getD, List.getElem?_cons_succ]
        exact getD_map_const_none rest j
    | succ l' =>
      cases k with
      | zero => omega
      | succ j => simpa [resetDeeper, List.getD] using ih l' j (by omega)

/-! ## C3 — list-numbering prefixes -/

/-- C3: per numbering instance, per-level counters increment on use (an
unused counter begins at the level's start value) and all deeper levels reset
when a shallower-or-equal level is used; for level 0 = decimal-from-1 and
level 1 = lowerLetter-from-1 the level sequence [0,1,1,0,1] renders the
markers ["1","a","b","2","a"]; upper-roman formats 12 as "XII" and 4 as "IV"
via subtractive pairs.  (The computation is modelled from the spec: no
list-numbering code exists under `src/`.) -/
theorem numbering_markers_and_roman :
    renderLevelSeq [⟨.decimal, 1⟩, ⟨.lowerLetter, 1⟩] [0, 1, 1, 0, 1]
        = ["1", "a", "b", "2", "a"]
    ∧ upperRomanFmt 12 = "XII"
    ∧ upperRomanFmt 4 = "IV"
    ∧ (∀ defs counters lvl k, lvl < k →
        ((useLevel defs counters lvl).1.getD k none) = none)
    ∧ (∀ defs counters lvl c, counters.getD lvl none = some c →
        (useLevel defs counters lvl).2 = c + 1)
    ∧ (∀ defs counters lvl, counters.getD lvl none = none →
        (useLevel defs counters lvl).2 = (defs.getD lvl ⟨.decimal, 1⟩).start) := by
  refine ⟨by decide, by decide, by decide, ?_, ?_, ?_⟩
  · intro defs counters lvl k hk
    exact resetDeeper_getD_none _ lvl k hk
  · intro defs counters lvl c h
    simp only [List.getD, List.get?_eq_getElem?] at h
    simp [useLevel, h]
  · intro defs counters lvl h
    simp only [List.getD, List.get?_eq_getElem?] at h
    simp [useLevel, h]

/-- Witness for the hypotheses of `numbering_markers_and_roman`: the general
counter clauses applied at concrete inputs. -/
theorem numbering_markers_witness :
    ((useLevel [⟨NumFmt.decimal, 1⟩] [some 3, some 7] 0).1.getD 1 none = none)
    ∧ ((useLevel [⟨NumFmt.decimal, 1⟩] [some 3, some 7] 0).2 = 4)
    ∧ ((useLevel [⟨NumFmt.decimal, 5⟩] [none] 0).2 = 5) :=
  ⟨numbering_markers_and_roman.2.2.2.1 [⟨NumFmt.decimal, 1⟩] [some 3, some 7] 0 1
      (by decide),
   numbering_markers_and_roman.2.2.2.2.1 [⟨NumFmt.decimal, 1⟩] [some 3, some 7] 0 3
      (by decide),
   numbering_markers_and_roman.2.2.2.2.2 [⟨NumFmt.decimal, 5⟩] [none] 0 (by decide)⟩

/-! ## C4 — column-insert width arithmetic -/

theorem pyMax_mem (x : Nat) (xs : List Nat) : xs.foldl max x ∈ x :: xs := by
  induction xs generalizing x with
  | nil => simp
  | cons y ys ih =>
    have hfold : (y :: ys).foldl max x = ys.foldl max (max x y) := rfl
    have h := ih (max x y)
    rw [hfold]
    rcases List.mem_cons.mp h with h' | h'
    · rw [h']
      rcases max_choice x y with hm | hm <;> rw [hm] <;> simp
    · simp [h']

theorem idxOfMax_some_lt (l : List Nat) (h : l ≠ []) :
    ∃ i, idxOfMax l = some i ∧ i < l.length := by
  cases l with
  | nil => exact absurd rfl h
  | cons x xs =>
    refine ⟨List.indexOf (xs.foldl max x) (x :: xs), rfl, ?_⟩
    exact List.indexOf_lt_length.mpr (pyMax_mem x xs)

theorem addAt_sum : ∀ (l : List Int) (i : Nat) (d : Int), i < l.length →
    (addAt l i d).sum = l.sum + d := by
  intro l
  induction l with
  | nil => intro i d h; simp at h
  | cons x xs ih =>
    intro i d h
    cases i with
    | zero => simp [addAt]; ring
    | succ j =>
      simp only [addAt, List.sum_cons]
      rw [ih j d (by simpa using h)]
      ring

theorem sum_insertIdx (x : Int) : ∀ (i : Nat) (l : List Int), i ≤ l.length →
    (l.insertIdx i x).sum = l.sum + x := by
  intro i
  induction i with
  | zero => intro l _; simp [List.insertIdx]; ring
  | succ j ih =>
    intro l h
    cases l with
    | nil => simp at h
    | cons y ys =>
      simp only [List.insertIdx_succ_cons, List.sum_cons]
      rw [ih ys (by simpa using h)]
      ring

theorem addAt_length : ∀ (l : List Int) (i : Nat) (d : Int),
    (addAt l i d).length = l.length := by
  intro l
  induction l with
  | nil => intro i d; rfl
  | cons x xs ih => intro i d; cases i <;> simp [addAt, ih]

theorem sum_map_ofNat (l : List Nat) : (l.map Int.ofNat).sum = (l.sum : Int) := by
  induction l with
  | nil => simp
  | cons a rest ih => simp [List.sum_cons, ih]

/-- Core of the width computation: once the `(remaining, new_col_width)`
pair summing to the total is fixed, the rescaling, remainder assignment and
insertion conserve the total exactly. -/
theorem plan_core_sum (t R N : Nat) (gc : List Nat) (pos : Nat) (orig : Nat)
    (hgc : gc ≠ []) (hpos : pos ≤ gc.length) (hRN : R + N = t) :
    ((match idxOfMax (gc.map (fun w => max 400 (w * R / orig))) with
      | none => (gc.map (fun w => max 400 (w * R / orig))).map Int.ofNat
      | some i => addAt ((gc.map (fun w => max 400 (w * R / orig))).map Int.ofNat) i
          ((R : Int) - ((gc.map (fun w => max 400 (w * R / orig))).sum : Int))
      ).insertIdx pos (N : Int)).sum = (t : Int) := by
  set adjusted := gc.map (fun w => max 400 (w * R / orig)) with hadj
  have hne : adjusted ≠ [] := by
    simp only [hadj, ne_eq, List.map_eq_nil_iff]
    exact hgc
  obtain ⟨i, hi, hilt⟩ := idxOfMax_some_lt adjusted hne
  rw [hi]
  have hlen : (addAt (adjusted.map Int.ofNat) i ((R : Int) - (adjusted.sum : Int))).length
      = gc.length := by
    rw [addAt_length, List.length_map, hadj, List.length_map]
  rw [sum_insertIdx _ pos _ (by rw [hlen]; exact hpos)]
  rw [addAt_sum _ i _ (by rw [List.length_map]; simpa [hadj] using hilt)]
  rw [sum_map_ofNat]
  have : ((R : Int) + (N : Int)) = (t : Int) := by exact_mod_cast congrArg Nat.cast hRN
  omega

/-- C4 (amended): for a table with declared total width `total_width` and a
nonempty `tblGrid`, every column insertion writes back widths that sum to the
declared total width exactly; the new column's width is capped at 30% of the
total **rounded up** (`10·w ≤ 3·total + 9`) — in the minimum-width fallback
branch the width is `total − ⌊7·total/10⌋ = ⌈3·total/10⌉`, which exceeds the
exact 30% bound whenever the total is not a multiple of 10. -/
theorem _table_add_column_width_conservation (total_width : Nat) (gc : List Nat)
    (contents : List String) (pos : Nat) (hgc : gc ≠ []) (hpos : pos ≤ gc.length) :
    (_table_add_column_plan total_width gc contents pos).1.sum = (total_width : Int)
    ∧ 10 * (_table_add_column_plan total_width gc contents pos).2
        ≤ 3 * total_width + 9 := by
  constructor
  · simp only [_table_add_column_plan]
    split
    · exact plan_core_sum total_width (total_width * 7 / 10)
        (total_width - total_width * 7 / 10) gc pos _ hgc hpos (by omega)
    · refine plan_core_sum total_width _ _ gc pos _ hgc hpos ?_
      have h1 : ((pyMaxD 2 (contents.map _estimate_text_width) * 200 + 200) ⊔ 400)
          ⊓ (total_width * 3 / 10) ≤ total_width * 3 / 10 := Nat.min_le_right _ _
      omega
  · simp only [_table_add_column_plan]
    split
    · simp only []
      omega
    · simp only []
      have h1 : ((pyMaxD 2 (contents.map _estimate_text_width) * 200 + 200) ⊔ 400)
          ⊓ (total_width * 3 / 10) ≤ total_width * 3 / 10 := Nat.min_le_right _ _
      omega

/-- C4 counterexample to the strict 30% cap: a one-column table of declared
width 99 twips; the inserted column's width comes out as 30 > ⌊0.3·99⌋, i.e.
10·30 > 3·99.  (Width conservation still holds: the widths are [69, 30].) -/
theorem _table_add_column_cap_counterexample :
    (_table_add_column_plan 99 [99] [""] 1).2 = 30
    ∧ ¬ (10 * (_table_add_column_plan 99 [99] [""] 1).2 ≤ 3 * 99)
    ∧ (_table_add_column_plan 99 [99] [""] 1).1 = [69, 30] := by decide

/-- Witness for `_table_add_column_width_conservation` at a concrete input:
a two-column grid [500, 400] in a table of width 1000, insertion at index 1. -/
theorem _table_add_column_width_conservation_witness :
    (_table_add_column_plan 1000 [500, 400] ["ab"] 1).1.sum = (1000 : Int)
    ∧ 10 * (_table_add_column_plan 1000 [500, 400] ["ab"] 1).2 ≤ 3 * 1000 + 9 :=
  _table_add_column_width_conservation 1000 [500, 400] ["ab"] 1 (by decide)
    (by decide)

/-! ## C8 — mutation helpers are total and identity on invalid input -/

/-- The default element ElementTree never hands out (used only under guards
that prevent the access). -/
def emptyElem : Xml := Xml.mk "" [] none []

/-- C8: the table/SDT sub-structure helpers are total functions (no
exception path exists in the model) and return the input string unchanged
when the XML does not parse or the row/column/paragraph index is out of
range: `_table_delete_row`, `_table_delete_paragraph`,
`_table_replace_paragraph` and `_toc_delete_entry` (the sibling
`_table_delete_column` is covered by the column-floor theorem). -/
theorem table_helpers_identity_on_invalid :
    (∀ (s : XmlS) (r : Nat),
      (s.parsed = none → _table_delete_row s r = s)
      ∧ (∀ t, s.parsed = some t → (descTags "w:tr" t).length ≤ r →
          _table_delete_row s r = s))
    ∧ (∀ (s : XmlS) (r c p : Nat),
      (s.parsed = none → _table_delete_paragraph s r c p = s)
      ∧ (∀ t, s.parsed = some t →
          ((descTags "w:tr" t).length ≤ r
           ∨ (descTags "w:tc" ((descTags "w:tr" t).getD r emptyElem)).length ≤ c
           ∨ (childTags "w:p" ((descTags "w:tc"
                ((descTags "w:tr" t).getD r emptyElem)).getD c emptyElem)).length ≤ p) →
          _table_delete_paragraph s r c p = s))
    ∧ (∀ (s : XmlS) (r c p : Nat) (txt : String) (runs : List XmlS),
      (s.parsed = none → _table_replace_paragraph s r c p txt runs = s)
      ∧ (∀ t, s.parsed = some t →
          ((descTags "w:tr" t).length ≤ r
           ∨ (descTags "w:tc" ((descTags "w:tr" t).getD r emptyElem)).length ≤ c
           ∨ (childTags "w:p" ((descTags "w:tc"
                ((descTags "w:tr" t).getD r emptyElem)).getD c emptyElem)).length ≤ p) →
          _table_replace_paragraph s r c p txt runs = s))
    ∧ (∀ (s : XmlS) (p : Nat),
      (s.parsed = none → _toc_delete_entry s p = s)
      ∧ (∀ t, s.parsed = some t →
          (findChildTag "w:sdtContent" t = none
           ∨ ∃ content, findChildTag "w:sdtContent" t = some content
              ∧ (childTags "w:p" content).length ≤ p) →
          _toc_delete_entry s p = s)) := by
  refine ⟨fun s r => ⟨?_, ?_⟩, fun s r c p => ⟨?_, ?_⟩,
    fun s r c p txt runs => ⟨?_, ?_⟩, fun s p => ⟨?_, ?_⟩⟩
  · intro h; simp [_table_delete_row, h]
  · intro t ht hr
    simp only [_table_delete_row, ht]
    rw [if_pos (by omega)]
  · intro h; simp [_table_delete_paragraph, h]
  · intro t ht h
    simp only [_table_delete_paragraph, ht, emptyElem]
    split_ifs with h1 h2 h3 h4 <;> try rfl
    exfalso
    simp only [emptyElem] at h
    rcases h with h | h | h <;> omega
  · intro h; simp [_table_replace_paragraph, h]
  · intro t ht h
    simp only [_table_replace_paragraph, ht, emptyElem]
    by_cases h1 : r ≥ (descTags "w:tr" t).length
    · rw [if_pos h1]
    · rw [if_neg h1]
      by_cases h2 : c ≥ (descTags "w:tc"
          ((descTags "w:tr" t).getD r (Xml.mk "" [] none []))).length
      · rw [if_pos h2]
      · rw [if_neg h2]
        have h3 : p ≥ (childTags "w:p" ((descTags "w:tc"
            ((descTags "w:tr" t).getD r (Xml.mk "" [] none []))).getD c
              (Xml.mk "" [] none []))).length := by
          simp only [emptyElem] at h
          rcases h with h | h | h <;> omega
        rw [if_pos h3]
  · intro h; simp [_toc_delete_entry, h]
  · intro t ht h
    simp only [_toc_delete_entry, ht]
    rcases h with h | ⟨content, hc, hp⟩
    · rw [h]
    · rw [hc]
      simp only []
      rw [if_pos (by omega)]

/-- Witness for `table_helpers_identity_on_invalid`: the guards applied to an
unparsable string and to a parsed one-row table with out-of-range indices. -/
theorem table_helpers_identity_witness :
    _table_delete_row ⟨"<w:tbl", none⟩ 0 = ⟨"<w:tbl", none⟩
    ∧ _table_delete_row ⟨"x", some (Xml.mk "w:tbl" [] none [])⟩ 0
        = ⟨"x", some (Xml.mk "w:tbl" [] none [])⟩
    ∧ _table_delete_paragraph ⟨"y", some (Xml.mk "w:tbl" [] none [])⟩ 1 0 0
        = ⟨"y", some (Xml.mk "w:tbl" [] none [])⟩
    ∧ _table_replace_paragraph ⟨"z", some (Xml.mk "w:tbl" [] none [])⟩ 2 0 0 "hi" []
        = ⟨"z", some (Xml.mk "w:tbl" [] none [])⟩
    ∧ _toc_delete_entry ⟨"w", some (Xml.mk "w:sdt" [] none [])⟩ 0
        = ⟨"w", some (Xml.mk "w:sdt" [] none [])⟩ :=
  ⟨(table_helpers_identity_on_invalid.1 ⟨"<w:tbl", none⟩ 0).1 rfl,
   (table_helpers_identity_on_invalid.1 ⟨"x", some (Xml.mk "w:tbl" [] none [])⟩ 0).2
      _ rfl (by simp [descTags, descList, Xml.children]),
   (table_helpers_identity_on_invalid.2.1 ⟨"y", some (Xml.mk "w:tbl" [] none [])⟩
      1 0 0).2 _ rfl (Or.inl (by simp [descTags, descList, Xml.children])),
   (table_helpers_identity_on_invalid.2.2.1 ⟨"z", some (Xml.mk "w:tbl" [] none [])⟩
      2 0 0 "hi" []).2 _ rfl (Or.inl (by simp [descTags, descList, Xml.children])),
   (table_helpers_identity_on_invalid.2.2.2 ⟨"w", some (Xml.mk "w:sdt" [] none [])⟩
      0).2 _ rfl (Or.inl rfl)⟩

/-! ## C9 — a table never loses its last column -/

/-- Direct-cell count of the first direct row — the quantity
`len(xml_rows[0].findall("w:tc"))` that `_table_delete_column` guards on. -/
def firstRowColCount (t : Xml) : Nat :=
  (childTags "w:tc" ((childTags "w:tr" t).getD 0 (Xml.mk "" [] none []))).length

/-- Column count of a table XML string (0 when unparsable). -/
def colCountS (s : XmlS) : Nat :=
  match s.parsed with
  | some t => firstRowColCount t
  | none => 0

theorem tag_withChildren (x : Xml) (cs : List Xml) : (x.withChildren cs).tag = x.tag := by
  cases x; rfl

theorem children_withChildren (x : Xml) (cs : List Xml) :
    (x.withChildren cs).children = cs := by
  cases x; rfl

theorem filter_tr_map_colremove (c : Nat) (l : List Xml) :
    (l.map (fun ch => if ch.tag == "w:tr" then
        ch.withChildren (removeNthTagL "w:tc" ch.children c) else ch)).filter
      (fun x => x.tag == "w:tr")
    = (l.filter (fun x => x.tag == "w:tr")).map
        (fun ch => ch.withChildren (removeNthTagL "w:tc" ch.children c)) := by
  induction l with
  | nil => rfl
  | cons h rest ih =>
    by_cases ht : (h.tag == "w:tr") = true
    · simp only [List.map_cons, List.filter_cons, ht, if_true, tag_withChildren,
        List.map_cons]
      rw [ih]
    · have h1 : (if (h.tag == "w:tr") = true then
          h.withChildren (removeNthTagL "w:tc" h.children c) else h) = h := if_neg ht
      simp only [List.map_cons, List.filter_cons, h1]
      rw [if_neg ht, if_neg ht]
      exact ih

theorem count_removeNthTagL (t : String) : ∀ (l : List Xml) (n : Nat),
    ((removeNthTagL t l n).filter (fun x => x.tag == t)).length
      = if n < (l.filter (fun x => x.tag == t)).length then
          (l.filter (fun x => x.tag == t)).length - 1
        else (l.filter (fun x => x.tag == t)).length := by
  intro l
  induction l with
  | nil => intro n; simp [removeNthTagL]
  | cons h rest ih =>
    intro n
    by_cases ht : (h.tag == t) = true
    · cases n with
      | zero =>
        have hrm : removeNthTagL t (h :: rest) 0 = rest := by
          simp [removeNthTagL, ht]
        rw [hrm]
        simp only [List.filter_cons, ht, if_true, List.length_cons]
        rw [if_pos (by omega)]
        omega
      | succ m =>
        have hrm : removeNthTagL t (h :: rest) (m + 1) = h :: removeNthTagL t rest m := by
          simp [removeNthTagL, ht]
        rw [hrm]
        simp only [List.filter_cons, ht, if_true, List.length_cons]
        rw [ih m]
        by_cases hm : m < (rest.filter (fun x => x.tag == t)).length
        · rw [if_pos hm, if_pos (by omega)]
          omega
        · rw [if_neg hm, if_neg (by omega)]
    · have hrm : removeNthTagL t (h :: rest) n = h :: removeNthTagL t rest n := by
        simp [removeNthTagL, ht]
      rw [hrm]
      simp only [List.filter_cons, ht, if_false]
      exact ih n

theorem filter_tr_dropGrid (c : Nat) : ∀ (l : List Xml),
    (dropGridCol c l).filter (fun x => x.tag == "w:tr")
      = l.filter (fun x => x.tag == "w:tr") := by
  intro l
  induction l with
  | nil => rfl
  | cons h rest ih =>
    by_cases hg : (h.tag == "w:tblGrid") = true
    · have hd : dropGridCol c (h :: rest)
          = h.withChildren (removeNthTagL "w:gridCol" h.children c) :: rest := by
        simp [dropGridCol, hg]
      rw [hd]
      have htag : h.tag = "w:tblGrid" := by simpa using hg
      simp only [List.filter_cons, tag_withChildren, htag]
      rfl
    · have hd : dropGridCol c (h :: rest) = h :: dropGridCol c rest := by
        simp [dropGridCol, hg]
      rw [hd]
      simp only [List.filter_cons]
      rw [ih]

theorem colCount_delete_column_ge_one (s : XmlS) (c : Nat)
    (h : 1 ≤ colCountS s) : 1 ≤ colCountS (_table_delete_column s c) := by
  cases hp : s.parsed with
  | none => simpa [_table_delete_column, hp] using h
  | some t =>
    have hcount : colCountS s = firstRowColCount t := by simp [colCountS, hp]
    simp only [_table_delete_column, hp]
    by_cases h1 : (childTags "w:tr" t).length = 0
    · rw [if_pos h1]; exact h
    · rw [if_neg h1]
      by_cases h2 : c ≥ (childTags "w:tc"
          ((childTags "w:tr" t).getD 0 (Xml.mk "" [] none []))).length
      · rw [if_pos h2]; exact h
      · rw [if_neg h2]
        by_cases h3 : (childTags "w:tc"
            ((childTags "w:tr" t).getD 0 (Xml.mk "" [] none []))).length ≤ 1
        · rw [if_pos h3]; exact h
        · rw [if_neg h3]
          -- the mutating branch
          cases hrows : childTags "w:tr" t with
          | nil => exact absurd (by rw [hrows]; rfl) h1
          | cons r0 rrest =>
            have hmap : childTags "w:tr" (t.withChildren (t.children.map
                (fun ch => if ch.tag == "w:tr" then
                  ch.withChildren (removeNthTagL "w:tc" ch.children c) else ch)))
                = (childTags "w:tr" t).map
                    (fun ch => ch.withChildren (removeNthTagL "w:tc" ch.children c)) := by
              simp only [childTags, children_withChildren]
              exact filter_tr_map_colremove c t.children
            have hfirst : ∀ (u : Xml), childTags "w:tr" u
                  = (childTags "w:tr" t).map
                    (fun ch => ch.withChildren (removeNthTagL "w:tc" ch.children c)) →
                1 ≤ firstRowColCount u := by
              intro u hu
              have hn : 2 ≤ (childTags "w:tc" r0).length := by
                rw [hrows] at h3
                simp only [List.getD, List.get?_eq_getElem?, List.getElem?_cons_zero,
                  Option.getD_some] at h3
                omega
              have hc : c < (childTags "w:tc" r0).length := by
                rw [hrows] at h2
                simp only [List.getD, List.get?_eq_getElem?, List.getElem?_cons_zero,
                  Option.getD_some] at h2
                omega
              unfold firstRowColCount
              rw [hu, hrows]
              simp only [List.map_cons, List.getD, List.get?_eq_getElem?,
                List.getElem?_cons_zero, Option.getD_some]
              simp only [childTags, children_withChildren]
              rw [count_removeNthTagL "w:tc" r0.children c]
              rw [if_pos (by simpa [childTags] using hc)]
              have hn' : 2 ≤ (List.filter (fun x => x.tag == "w:tc") r0.children).length := by
                simpa [childTags] using hn
              omega
            cases hg : findChildTag "w:tblGrid" (t.withChildren (t.children.map
                (fun ch => if ch.tag == "w:tr" then
                  ch.withChildren (removeNthTagL "w:tc" ch.children c) else ch))) with
            | none =>
              simp only [hg, colCountS, serialize]
              exact hfirst _ hmap
            | some g =>
              simp only [hg, colCountS, serialize]
              refine hfirst _ ?_
              simp only [childTags, children_withChildren]
              rw [filter_tr_dropGrid]
              simpa [childTags, children_withChildren] using hmap

/-- C9: a table retains at least one column.  `_table_delete_column` returns
the table unchanged whenever the first row has at most one cell, every single
deletion preserves "at least one column", and hence no batch of column-delete
edits (a fold of deletions) can produce a zero-column table. -/
theorem _table_delete_column_floor :
    (∀ (s : XmlS) (t : Xml) (c : Nat), s.parsed = some t →
        firstRowColCount t ≤ 1 → _table_delete_column s c = s)
    ∧ (∀ (s : XmlS) (c : Nat), 1 ≤ colCountS s →
        1 ≤ colCountS (_table_delete_column s c))
    ∧ (∀ (s : XmlS) (cs : List Nat), 1 ≤ colCountS s →
        1 ≤ colCountS (cs.foldl _table_delete_column s)) := by
  refine ⟨?_, colCount_delete_column_ge_one, ?_⟩
  · intro s t c hp hle
    simp only [_table_delete_column, hp]
    by_cases h1 : (childTags "w:tr" t).length = 0
    · rw [if_pos h1]
    · rw [if_neg h1]
      by_cases h2 : c ≥ (childTags "w:tc"
          ((childTags "w:tr" t).getD 0 (Xml.mk "" [] none []))).length
      · rw [if_pos h2]
      · rw [if_neg h2]
        rw [if_pos (by unfold firstRowColCount at hle; omega)]
  · intro s cs
    induction cs generalizing s with
    | nil => intro h; simpa using h
    | cons c rest ih =>
      intro h
      simpa using ih (_table_delete_column s c) (colCount_delete_column_ge_one s c h)

/-- Witness for `_table_delete_column_floor`: a parsed one-column, one-row
table is returned unchanged, and the invariant holds for it through a batch
of deletions. -/
theorem _table_delete_column_floor_witness :
    (_table_delete_column
        ⟨"t", some (Xml.mk "w:tbl" [] none
          [Xml.mk "w:tr" [] none [Xml.mk "w:tc" [] none []]])⟩ 0
      = ⟨"t", some (Xml.mk "w:tbl" [] none
          [Xml.mk "w:tr" [] none [Xml.mk "w:tc" [] none []]])⟩)
    ∧ 1 ≤ colCountS ([0, 0].foldl _table_delete_column
        ⟨"t", some (Xml.mk "w:tbl" [] none
          [Xml.mk "w:tr" [] none [Xml.mk "w:tc" [] none []]])⟩) :=
  ⟨_table_delete_column_floor.1 _ _ 0 rfl
      (by simp [firstRowColCount, childTags, Xml.tag, Xml.children, List.filter_cons]),
   _table_delete_column_floor.2.2 _ [0, 0]
     (by simp [colCountS, firstRowColCount, childTags, Xml.tag, Xml.children,
        List.filter_cons])⟩

/-! ## C10 — tblHeader stripping on row-style application -/

/-- C10 (amended): when a row style alias resolves to a nonempty trPr
template whose XML parses and the template carries **at most one** direct
`w:tblHeader` child, `_apply_row_style` attaches the template as the row's
first child with its first `w:tblHeader` removed, so the attached trPr
contains no `w:tblHeader`.  (`find` strips only the first occurrence, so a
template with two `tblHeader` children keeps one — see the
counterexample.) -/
theorem _apply_row_style_strips_header (row : Xml) (rsAlias : String)
    (m : List (String × XmlS)) (tpl : XmlS) (trpr : Xml)
    (hfind : (m.find? (fun p => p.1 == rsAlias)).map Prod.snd = some tpl)
    (hraw : tpl.raw ≠ "" ∧ pyStrip tpl.raw ≠ "")
    (hparse : tpl.parsed = some trpr)
    (hone : countChildTag "w:tblHeader" trpr ≤ 1) :
    (_apply_row_style row rsAlias m).children.head?
      = some (removeFirstChildTag "w:tblHeader" trpr)
    ∧ countChildTag "w:tblHeader" (removeFirstChildTag "w:tblHeader" trpr) = 0 := by
  constructor
  · simp only [_apply_row_style, hfind, Option.getD_some]
    rw [if_pos (by simp [hraw.1, hraw.2]), hparse]
    simp [children_withChildren]
  · simp only [countChildTag, childTags, removeFirstChildTag, children_withChildren]
    rw [count_removeNthTagL "w:tblHeader" trpr.children 0]
    simp only [countChildTag, childTags] at hone
    by_cases hz : 0 < (trpr.children.filter (fun x => x.tag == "w:tblHeader")).length
    · rw [if_pos hz]; omega
    · rw [if_neg hz]; omega

/-- C10 counterexample: a (schema-valid) trPr template with two
`w:tblHeader` children — only the first is stripped, so the freshly built
row's attached trPr still contains a `w:tblHeader`. -/
theorem _apply_row_style_header_counterexample :
    countChildTag "w:tblHeader"
      ((_apply_row_style (Xml.mk "w:tr" [] none []) "RS0"
          [("RS0", ⟨"<w:trPr/>", some (Xml.mk "w:trPr" [] none
            [Xml.mk "w:tblHeader" [] none [],
             Xml.mk "w:tblHeader" [] none []])⟩)]).children.headD
        (Xml.mk "" [] none [])) = 1 := by rfl

/-- Witness for `_apply_row_style_strips_header`: a single-`tblHeader`
template applied to a fresh row. -/
theorem _apply_row_style_strips_header_witness :
    (_apply_row_style (Xml.mk "w:tr" [] none []) "RS0"
        [("RS0", ⟨"<w:trPr/>", some (Xml.mk "w:trPr" [] none
          [Xml.mk "w:tblHeader" [] none []])⟩)]).children.head?
      = some (removeFirstChildTag "w:tblHeader" (Xml.mk "w:trPr" [] none
          [Xml.mk "w:tblHeader" [] none []]))
    ∧ countChildTag "w:tblHeader" (removeFirstChildTag "w:tblHeader"
        (Xml.mk "w:trPr" [] none [Xml.mk "w:tblHeader" [] none []])) = 0 :=
  _apply_row_style_strips_header (Xml.mk "w:tr" [] none []) "RS0" _ _ _
    rfl (by constructor <;> decide) rfl
    (by simp [countChildTag, childTags, Xml.tag, Xml.children, List.filter_cons])

/-! ## C5 — repackaging frame property -/

theorem diskLookup_some_inModified (disk : List (String × List Nat)) (name : String)
    (bytes : List Nat) (hx : isXmlOrRels name = true)
    (hl : diskLookup disk name = some bytes) : inModifiedFiles disk name = true := by
  unfold diskLookup at hl
  unfold inModifiedFiles
  rcases Option.map_eq_some'.mp hl with ⟨p, hp, _⟩
  have hmem := List.mem_of_find?_eq_some hp
  have hname : (p.1 == name) = true := by
    have := List.find?_some hp
    simpa using this
  refine List.any_eq_true.mpr ⟨p, hmem, ?_⟩
  have : p.1 = name := by simpa using hname
  simp [this, hx]

/-- C5: `package_to_docx` iterates the original entries in order (the output
is index-aligned with the input and every entry keeps its `ZipInfo`
metadata), substitutes on-disk bytes exactly for entries whose name is a
modified `.xml`/`.rels` file, and copies every other entry byte-identically. -/
theorem package_to_docx_frame (orig : List ZipEntry)
    (disk : List (String × List Nat)) :
    ((package_to_docx orig disk).map ZipEntry.info = orig.map ZipEntry.info)
    ∧ (∀ (i : Nat) (e : ZipEntry), orig[i]? = some e →
        inModifiedFiles disk e.info.filename = false →
        (package_to_docx orig disk)[i]? = some e)
    ∧ (∀ (i : Nat) (e : ZipEntry) (bytes : List Nat), orig[i]? = some e →
        isXmlOrRels e.info.filename = true →
        diskLookup disk e.info.filename = some bytes →
        (package_to_docx orig disk)[i]? = some { e with content := bytes }) := by
  refine ⟨?_, ?_, ?_⟩
  · unfold package_to_docx
    rw [List.map_map]
    refine List.map_congr_left ?_
    intro e _
    simp only [Function.comp_apply]
    split
    · split <;> rfl
    · rfl
  · intro i e he hmod
    unfold package_to_docx
    rw [List.getElem?_map, he]
    simp [hmod]
  · intro i e bytes he hx hl
    unfold package_to_docx
    rw [List.getElem?_map, he]
    simp [diskLookup_some_inModified disk _ bytes hx hl, hl]

/-- Witness for `package_to_docx_frame`: a two-entry archive (one XML part,
one binary part) repacked against a one-file working tree. -/
theorem package_to_docx_frame_witness :
    (package_to_docx
        [⟨⟨"word/document.xml", "m1"⟩, [1, 2]⟩, ⟨⟨"word/media/i.png", "m2"⟩, [9]⟩]
        [("word/document.xml", [7, 7])])[0]?
      = some ⟨⟨"word/document.xml", "m1"⟩, [7, 7]⟩
    ∧ (package_to_docx
        [⟨⟨"word/document.xml", "m1"⟩, [1, 2]⟩, ⟨⟨"word/media/i.png", "m2"⟩, [9]⟩]
        [("word/document.xml", [7, 7])])[1]?
      = some ⟨⟨"word/media/i.png", "m2"⟩, [9]⟩ :=
  ⟨(package_to_docx_frame _ _).2.2 0 ⟨⟨"word/document.xml", "m1"⟩, [1, 2]⟩ [7, 7]
      rfl rfl rfl,
   (package_to_docx_frame _ _).2.1 1 ⟨⟨"word/media/i.png", "m2"⟩, [9]⟩ rfl rfl⟩

/-! ## C7 — identity round trip on an empty edit list -/

/-- A block carrying none of the edit markers (what `apply_mapping_to_blocks`
yields for analysis blocks no edit targets — in particular all of them when
the edit list is empty). -/
def MBlock.unmarked (b : MBlock) : Prop :=
  b.deleted = false ∧ b.replaced = false ∧ b.inserts_before = []
    ∧ b.inserts_after = []

theorem renderBlock_unmarked (R : Renderers) (psts : List (String × PST))
    (st : AsmState) (b : MBlock) (h : b.unmarked) :
    renderBlock R psts st b
      = { st with parts_idx := assocSet st.parts_idx b.id st.body_parts.length
                  body_parts := st.body_parts ++ [b.xml.raw] } := by
  obtain ⟨hd, hr, hib, hia⟩ := h
  cases hrep : b.replacements with
  | none => simp [renderBlock, hd, hib, hia, hr, hrep]
  | some l => simp [renderBlock, hd, hib, hia, hr, hrep]

theorem fold_render_unmarked (R : Renderers) (psts : List (String × PST)) :
    ∀ (blocks : List MBlock) (st : AsmState), (∀ b ∈ blocks, MBlock.unmarked b) →
      ((blocks.foldl (renderBlock R psts) st).body_parts
          = st.body_parts ++ blocks.map (fun b => b.xml.raw))
      ∧ ((blocks.foldl (renderBlock R psts) st).pending_bookmarks
          = st.pending_bookmarks) := by
  intro blocks
  induction blocks with
  | nil => intro st _; simp
  | cons b rest ih =>
    intro st h
    rw [List.foldl_cons, renderBlock_unmarked R psts st b (h b (by simp))]
    obtain ⟨h1, h2⟩ := ih _ (fun b' hb' => h b' (List.mem_cons_of_mem _ hb'))
    refine ⟨?_, by simpa using h2⟩
    rw [h1]
    simp

theorem writeFile_append (disk : List (String × List Nat)) (name : String)
    (bytes : List Nat) (h : ∀ p ∈ disk, p.1 ≠ name) :
    writeFile disk name bytes = disk ++ [(name, bytes)] := by
  unfold writeFile
  rw [if_neg]
  simp only [List.any_eq_true, not_exists]
  intro p
  rintro ⟨hp, hb⟩
  exact h p hp (by simpa using hb)

theorem extract_go (orig : List ZipEntry) :
    ∀ acc : List (String × List Nat),
    (∀ p ∈ acc, ∀ e ∈ orig, isXmlOrRels e.info.filename = true →
        p.1 ≠ e.info.filename) →
    (orig.map (fun e => e.info.filename)).Nodup →
    orig.foldl
        (fun disk e =>
          if isXmlOrRels e.info.filename then
            writeFile disk e.info.filename e.content
          else disk) acc
      = acc ++ orig.filterMap (fun e =>
          if isXmlOrRels e.info.filename then
            some (e.info.filename, e.content)
          else none) := by
  induction orig with
  | nil => intro acc _ _; simp
  | cons e rest ih =>
    intro acc hacc hnodup
    have hmap : (List.map (fun e => e.info.filename) (e :: rest))
        = e.info.filename :: rest.map (fun e => e.info.filename) := by simp
    rw [hmap] at hnodup
    have hnd := List.nodup_cons.mp hnodup
    simp only [List.foldl_cons, List.filterMap_cons]
    by_cases hx : isXmlOrRels e.info.filename = true
    · rw [if_pos hx, if_pos hx]
      rw [writeFile_append _ _ _ (fun p hp => hacc p hp e (by simp) hx)]
      rw [ih (acc ++ [(e.info.filename, e.content)]) ?_ hnd.2]
      · simp
      · intro p hp e' he' hx'
        rcases List.mem_append.mp hp with hmem | hmem
        · exact hacc p hmem e' (List.mem_cons_of_mem _ he') hx'
        · have hpv : p = (e.info.filename, e.content) := by simpa using hmem
          rw [hpv]
          intro hcontra
          have hcontra' : e.info.filename = e'.info.filename := by simpa using hcontra
          exact hnd.1 (hcontra' ▸ List.mem_map_of_mem _ he')
    · rw [if_neg hx, if_neg hx]
      exact ih acc (fun p hp e' he' hx' => hacc p hp e' (List.mem_cons_of_mem _ he') hx')
        hnd.2

theorem extract_docx_xml_eq (orig : List ZipEntry)
    (hnodup : (orig.map (fun e => e.info.filename)).Nodup) :
    extract_docx_xml orig
      = orig.filterMap (fun e =>
          if isXmlOrRels e.info.filename then
            some (e.info.filename, e.content)
          else none) := by
  unfold extract_docx_xml
  simpa using extract_go orig [] (by simp) hnodup

theorem lookup_extract (orig : List ZipEntry)
    (hnodup : (orig.map (fun e => e.info.filename)).Nodup) (e : ZipEntry)
    (he : e ∈ orig) (hx : isXmlOrRels e.info.filename = true) :
    diskLookup (extract_docx_xml orig) e.info.filename = some e.content := by
  rw [extract_docx_xml_eq orig hnodup]
  induction orig with
  | nil => simp at he
  | cons a rest ih =>
    have hmap : (List.map (fun e => e.info.filename) (a :: rest))
        = a.info.filename :: rest.map (fun e => e.info.filename) := by simp
    rw [hmap] at hnodup
    have hnd := List.nodup_cons.mp hnodup
    rcases List.mem_cons.mp he with rfl | he'
    · simp only [List.filterMap_cons, hx, if_pos]
      unfold diskLookup
      simp
    · have hne : a.info.filename ≠ e.info.filename := by
        intro hcontra
        exact hnd.1 (hcontra ▸ List.mem_map_of_mem _ he')
      by_cases hxa : isXmlOrRels a.info.filename = true
      · simp only [List.filterMap_cons, hxa, if_pos]
        unfold diskLookup at *
        rw [List.find?_cons_of_neg _ (by simpa using hne)]
        exact ih hnd.2 he'
      · simp only [List.filterMap_cons]
        rw [if_neg hxa]
        exact ih hnd.2 he'

theorem inModified_extract_false (orig : List ZipEntry)
    (hnodup : (orig.map (fun e => e.info.filename)).Nodup) (e : ZipEntry)
    (_he : e ∈ orig) (hx : isXmlOrRels e.info.filename = false) :
    inModifiedFiles (extract_docx_xml orig) e.info.filename = false := by
  rw [extract_docx_xml_eq orig hnodup]
  rw [inModifiedFiles]
  rw [List.any_eq_false]
  intro p hp
  rcases List.mem_filterMap.mp hp with ⟨e', he', hfe⟩
  by_cases hxe' : isXmlOrRels e'.info.filename = true
  · rw [if_pos hxe'] at hfe
    have hpv : p = (e'.info.filename, e'.content) := (by simpa using hfe : _ = p).symm
    rw [hpv]
    simp only [Bool.and_eq_true, beq_iff_eq, not_and]
    intro hname
    rw [hname, hx]
    simp
  · rw [if_neg hxe'] at hfe
    simp at hfe
  
theorem package_extract_roundtrip (orig : List ZipEntry)
    (hnodup : (orig.map (fun e => e.info.filename)).Nodup) :
    package_to_docx orig (extract_docx_xml orig) = orig := by
  unfold package_to_docx
  have : ∀ e ∈ orig,
      (if inModifiedFiles (extract_docx_xml orig) e.info.filename then
        match diskLookup (extract_docx_xml orig) e.info.filename with
        | some bytes => { e with content := bytes }
        | none => e
      else e) = e := by
    intro e he
    by_cases hx : isXmlOrRels e.info.filename = true
    · have hl := lookup_extract orig hnodup e he hx
      rw [diskLookup_some_inModified _ _ _ hx hl]
      rw [if_pos rfl]
      rw [hl]
    · rw [inModified_extract_false orig hnodup e he (by simpa using hx)]
      simp
  calc orig.map _ = orig.map id := List.map_congr_left this
  _ = orig := List.map_id orig

/-- C7: with an empty edit list `apply_edits.main` exits before touching any
part (the working tree is unchanged for every possible apply body), the
assembler emits every unmarked block's original XML verbatim (the assembled
body is exactly the concatenation of the original block XML), and repacking
the untouched extracted tree reproduces the original archive entry-for-entry
(for archives with distinct entry names), so re-analysis sees the same
bytes — the original block count and per-block text. -/
theorem apply_empty_identity_roundtrip :
    (∀ (applyFull : List Edit → List (String × List Nat) → List (String × List Nat))
        (tree : List (String × List Nat)),
        apply_edits_main applyFull [] tree = tree)
    ∧ (∀ (R : Renderers) (psts : List (String × PST)) (blocks : List MBlock),
        (∀ b ∈ blocks, MBlock.unmarked b) →
        assemble_document_xml R psts blocks
          = String.join (blocks.map (fun b => b.xml.raw)))
    ∧ (∀ (orig : List ZipEntry), (orig.map (fun e => e.info.filename)).Nodup →
        package_to_docx orig (extract_docx_xml orig) = orig) := by
  refine ⟨fun _ _ => rfl, ?_, package_extract_roundtrip⟩
  intro R psts blocks h
  obtain ⟨h1, h2⟩ := fold_render_unmarked R psts blocks {} h
  unfold assemble_document_xml injectPending
  dsimp only
  rw [h2]
  simp only [List.foldl_nil]
  rw [h1]
  rfl

/-- Witness for `apply_empty_identity_roundtrip` at concrete inputs. -/
theorem apply_empty_identity_roundtrip_witness :
    apply_edits_main (fun _ _ => []) ([] : List Edit) [("a", [1])] = [("a", [1])]
    ∧ assemble_document_xml
        ⟨fun _ => none, fun s _ _ _ _ _ => s, fun s _ _ _ => s, fun s _ _ _ => s,
         fun s _ _ _ _ => s, fun s _ _ _ _ _ => s, fun s _ _ => s⟩
        [] [{ id := "b0", xml := ⟨"<w:p/>", none⟩ }]
      = String.join ["<w:p/>"]
    ∧ package_to_docx [⟨⟨"word/document.xml", "m"⟩, [1]⟩]
        (extract_docx_xml [⟨⟨"word/document.xml", "m"⟩, [1]⟩])
      = [⟨⟨"word/document.xml", "m"⟩, [1]⟩] :=
  ⟨apply_empty_identity_roundtrip.1 _ _,
   apply_empty_identity_roundtrip.2.1 _ [] _
     (by
       intro b hb
       simp only [List.mem_singleton] at hb
       subst hb
       exact ⟨rfl, rfl, rfl, rfl⟩),
   apply_empty_identity_roundtrip.2.2 _ (by simp)⟩

/-! ## C6 — embedded objects: no synthesized runs, in-place substitution -/

/-- Structural skeleton: erase `w:t` texts and `xml:space` attributes —
everything `_replace_text_preserving_structure` is allowed to touch. -/
def skelAttrs (a : List (String × String)) : List (String × String) :=
  a.filter (fun p => p.1 ≠ "xml:space")

def skelL : List Xml → List Xml
  | [] => []
  | Xml.mk t a s cs :: rest =>
    Xml.mk t (skelAttrs a) (if t == "w:t" then none else s) (skelL cs)
      :: skelL rest

theorem skelAttrs_setAttrGo (v : String) : ∀ (a : List (String × String)),
    skelAttrs (Xml.setAttrGo "xml:space" v a) = skelAttrs a := by
  intro a
  induction a with
  | nil => simp [Xml.setAttrGo, skelAttrs]
  | cons p rest ih =>
    obtain ⟨k₀, v₀⟩ := p
    by_cases hk : (k₀ == "xml:space") = true
    · have hk' : k₀ = "xml:space" := by simpa using hk
      simp [Xml.setAttrGo, hk, skelAttrs, hk']
    · have hk' : ¬ k₀ = "xml:space" := by simpa using hk
      have hgo : Xml.setAttrGo "xml:space" v ((k₀, v₀) :: rest)
          = (k₀, v₀) :: Xml.setAttrGo "xml:space" v rest := by
        simp [Xml.setAttrGo, hk]
      unfold skelAttrs at *
      rw [hgo]
      rw [List.filter_cons_of_pos (by simp [hk']),
          List.filter_cons_of_pos (by simp [hk'])]
      rw [ih]

theorem skelL_setTextsDirect (attrAlways : Bool) (txt : String) :
    ∀ (l : List Xml) (b : Bool),
      skelL (setTextsDirect attrAlways txt l b).1 = skelL l := by
  intro l
  induction l with
  | nil => intro b; rfl
  | cons c rest ih =>
    intro b
    obtain ⟨t, a, s, cs⟩ := c
    by_cases hct : ((Xml.mk t a s cs).tag == "w:t") = true
    · have ht : t = "w:t" := by simpa [Xml.tag] using hct
      cases b with
      | true =>
        simp [setTextsDirect, hct, skelL, Xml.withText, ht, ih, Xml.tag, Xml.attrs,
          Xml.text, Xml.children]
      | false =>
        simp only [setTextsDirect, ht, Xml.withText, Xml.tag, Xml.attrs,
          Xml.text, Xml.children]
        rw [if_pos (by decide : ("w:t" == "w:t") = true)]
        rw [if_neg (by decide : ¬ (false = true))]
        by_cases hc2 : (attrAlways
            || ((Xml.mk "w:t" a (some txt) cs).getAttr "xml:space").isNone) = true
        · rw [if_pos hc2]
          simp [skelL, Xml.setAttr, Xml.tag, Xml.attrs, Xml.text, Xml.children,
            skelAttrs_setAttrGo, ih]
        · rw [if_neg hc2]
          simp [skelL, ih]
    · simp [setTextsDirect, hct, skelL, ih]

theorem skel_rtps (txt : String) : ∀ (n : Nat) (l : List Xml), sizeOf l ≤ n →
    (∀ b, skelL (rtpsL txt l b).1 = skelL l)
    ∧ (∀ tb nb, skelL (rtpsRun txt l tb nb).1 = skelL l) := by
  intro n
  induction n using Nat.strong_induction_on with
  | _ n ih =>
    intro l hl
    match l with
    | [] => exact ⟨fun b => by simp [rtpsL], fun tb nb => by simp [rtpsRun]⟩
    | Xml.mk t a s cs :: rest =>
      have hszc : sizeOf cs < n := by
        have : sizeOf cs < sizeOf (Xml.mk t a s cs :: rest) := by
          simp only [List.cons.sizeOf_spec, Xml.mk.sizeOf_spec]
          omega
        omega
      have hszr : sizeOf rest < n := by
        have : sizeOf rest < sizeOf (Xml.mk t a s cs :: rest) := by
          simp only [List.cons.sizeOf_spec]
          omega
        omega
      have ihc := fun (m : Nat) (hm : sizeOf cs ≤ m) (hmn : m < n) => ih m hmn cs hm
      have ihr := fun (m : Nat) (hm : sizeOf rest ≤ m) (hmn : m < n) => ih m hmn rest hm
      have ihcs := ih (sizeOf cs) hszc cs (le_refl _)
      have ihrest := ih (sizeOf rest) hszr rest (le_refl _)
      constructor
      · intro b
        by_cases htag : (t == "w:r") = true
        · rcases hr : rtpsRun txt cs b (b || cs.any (fun c => c.tag == "w:t"))
            with ⟨cs', b₁⟩
          rcases hl2 : rtpsL txt rest b₁ with ⟨rest', b₂⟩
          simp only [rtpsL, htag, if_true, hr, hl2]
          have e1 : skelL cs' = skelL cs := by
            have := ihcs.2 b (b || cs.any (fun c => c.tag == "w:t"))
            rw [hr] at this
            exact this
          have e2 : skelL rest' = skelL rest := by
            have := ihrest.1 b₁
            rw [hl2] at this
            exact this
          simp [skelL, e1, e2]
        · rcases hc : rtpsL txt cs b with ⟨cs', b₁⟩
          rcases hl2 : rtpsL txt rest b₁ with ⟨rest', b₂⟩
          simp only [rtpsL, htag, hc, hl2]
          have e1 : skelL cs' = skelL cs := by
            have := ihcs.1 b
            rw [hc] at this
            exact this
          have e2 : skelL rest' = skelL rest := by
            have := ihrest.1 b₁
            rw [hl2] at this
            exact this
          simp [skelL, e1, e2]
      · intro tb nb
        by_cases htag : (t == "w:t") = true
        · rcases hc : rtpsL txt cs nb with ⟨kids', nb₁⟩
          rcases hl2 : rtpsRun txt rest true nb₁ with ⟨rest', nb₂⟩
          simp only [rtpsRun, htag, if_true, hc, hl2]
          have ht' : t = "w:t" := by simpa using htag
          have e1 : skelL kids' = skelL cs := by
            have := ihcs.1 nb
            rw [hc] at this
            exact this
          have e2 : skelL rest' = skelL rest := by
            have := ihrest.2 true nb₁
            rw [hl2] at this
            exact this
          cases tb with
          | true =>
            simp [skelL, Xml.withText, Xml.withChildren, Xml.tag, Xml.attrs,
              Xml.text, Xml.children, ht', e1, e2]
          | false =>
            simp [skelL, Xml.withText, Xml.setAttr, Xml.withChildren, Xml.tag,
              Xml.attrs, Xml.text, Xml.children, ht', e1, e2, skelAttrs_setAttrGo]
        · by_cases htag2 : (t == "w:r") = true
          · rcases hc : rtpsRun txt cs nb (nb || cs.any (fun c => c.tag == "w:t"))
              with ⟨cs', nb₁⟩
            rcases hl2 : rtpsRun txt rest tb nb₁ with ⟨rest', nb₂⟩
            simp only [rtpsRun, htag, htag2, if_true, hc, hl2]
            have e1 : skelL cs' = skelL cs := by
              have := ihcs.2 nb (nb || cs.any (fun c => c.tag == "w:t"))
              rw [hc] at this
              exact this
            have e2 : skelL rest' = skelL rest := by
              have := ihrest.2 tb nb₁
              rw [hl2] at this
              exact this
            simp [skelL, e1, e2]
          · rcases hc : rtpsL txt cs nb with ⟨cs', nb₁⟩
            rcases hl2 : rtpsRun txt rest tb nb₁ with ⟨rest', nb₂⟩
            simp only [rtpsRun, htag, htag2, hc, hl2]
            have e1 : skelL cs' = skelL cs := by
              have := ihcs.1 nb
              rw [hc] at this
              exact this
            have e2 : skelL rest' = skelL rest := by
              have := ihrest.2 tb nb₁
              rw [hl2] at this
              exact this
            simp [skelL, e1, e2]

/-- C6: a replace edit on a paragraph whose original XML carries a non-text
object marker never gets synthesized run XML — the mapper's `run_xmls` is
empty — and the assembler emits that paragraph through
`_replace_text_preserving_structure`, whose output parses to a tree with the
original root and the original skeleton (same elements, attributes and
non-`w:t` texts; only `w:t` texts and `xml:space` markers change), so the
embedded object survives. -/
theorem non_text_paragraph_protected :
    (∀ (blockXml : XmlS) (new_text : String) (edit_rst pst_rst : List (String × RST))
        (runs_spec : Option (List RunSpec)),
      _has_non_text_content blockXml.raw = true →
      generate_new_blocks_run_xmls (some blockXml) new_text edit_rst pst_rst
        runs_spec = [])
    ∧ (∀ (psts : List (String × PST)) (blockXml : XmlS) (key content : String)
        (run_xmls : List XmlS) (tpl : PST),
      (psts.find? (fun p => p.1 == key)).map Prod.snd = some tpl →
      _has_non_text_content blockXml.raw = true →
      assemble_paragraph_replace psts blockXml key content run_xmls
        = [(_replace_text_preserving_structure blockXml content).raw])
    ∧ (∀ (s : XmlS) (t : Xml) (txt : String), s.parsed = some t →
        ∃ t', (_replace_text_preserving_structure s txt).parsed = some t'
          ∧ t'.tag = t.tag ∧ t'.attrs = t.attrs ∧ t'.text = t.text
          ∧ skelL t'.children = skelL t.children) := by
  refine ⟨?_, ?_, ?_⟩
  · intro blockXml new_text edit_rst pst_rst runs_spec h
    by_cases hnt : new_text = ""
    · simp [generate_new_blocks_run_xmls, hnt]
    · simp [generate_new_blocks_run_xmls, hnt, h]
  · intro psts blockXml key content run_xmls tpl hfind h
    simp only [assemble_paragraph_replace, hfind, h, if_pos]
  · intro s t txt hp
    refine ⟨t.withChildren (rtpsL txt t.children false).1, ?_, ?_, ?_, ?_, ?_⟩
    · simp [_replace_text_preserving_structure, hp, serialize]
    · exact tag_withChildren _ _
    · cases t; rfl
    · cases t; rfl
    · rw [children_withChildren]
      exact (skel_rtps txt (sizeOf t.children) t.children (le_refl _)).1 false

/-- The drawing-bearing paragraph used by the witness below. -/
def c6Tree : Xml :=
  Xml.mk "w:p" [] none [Xml.mk "w:drawing" [] none []]

def c6Xml : XmlS :=
  ⟨"<w:p><w:drawing/></w:p>", some c6Tree⟩

/-- Witness for `non_text_paragraph_protected`: a paragraph with an embedded
drawing. -/
theorem non_text_paragraph_protected_witness :
    generate_new_blocks_run_xmls (some c6Xml) "new" [("RS0", ⟨"<w:r/>"⟩)] [] none = []
    ∧ assemble_paragraph_replace [("S", ⟨"", []⟩)] c6Xml "S" "new" []
      = [(_replace_text_preserving_structure c6Xml "new").raw]
    ∧ ∃ t', (_replace_text_preserving_structure c6Xml "new").parsed = some t'
        ∧ t'.tag = c6Tree.tag ∧ t'.attrs = c6Tree.attrs ∧ t'.text = c6Tree.text
        ∧ skelL t'.children = skelL c6Tree.children :=
  ⟨non_text_paragraph_protected.1 c6Xml "new" _ [] none rfl,
   non_text_paragraph_protected.2.1 _ c6Xml "S" "new" [] ⟨"", []⟩ rfl rfl,
   non_text_paragraph_protected.2.2 c6Xml c6Tree "new" rfl⟩

/-! ## C1 — the cell-paragraph floor is not a validation check -/

/-- A 1×1 table whose only cell holds exactly one paragraph. -/
def c1Table : Xml :=
  Xml.mk "w:tbl" [] none
    [Xml.mk "w:tr" [] none [Xml.mk "w:tc" [] none [Xml.mk "w:p" [] none []]]]

def c1Analysis : Analysis :=
  { blocks := [{ id := "b0", type := "tbl",
                 xml := ⟨"<w:tbl><w:tr><w:tc><w:p/></w:tc></w:tr></w:tbl>",
                         some c1Table⟩,
                 semantic_tag := "TBL", style_key := "T1" }] }

/-- The delete edit aimed at the cell's only paragraph. -/
def c1Edit : Edit :=
  { action := "delete", target_id := "b0:r0c0p0", semantic_tag := "TBL" }

/-- C1 (amended): the cell-paragraph floor is not a validation check but a
mutation-time guard: for every parsed table XML and coordinates, if the
target cell (the `r`-th `.//w:tr` descendant's `c`-th `.//w:tc` descendant)
holds at most one direct `w:p` child, `_table_delete_paragraph` returns the
input XML unchanged, so every table cell retains at least one paragraph —
but `validate` itself accepts such a delete (see the counterexample). -/
theorem cell_paragraph_floor_at_mutation (s : XmlS) (t : Xml) (r c p : Nat)
    (ht : s.parsed = some t)
    (hfloor : (childTags "w:p" ((descTags "w:tc"
        ((descTags "w:tr" t).getD r emptyElem)).getD c emptyElem)).length ≤ 1) :
    _table_delete_paragraph s r c p = s := by
  simp only [_table_delete_paragraph, ht, emptyElem]
  split_ifs with h1 h2 h3 h4 <;> try rfl
  exfalso
  simp only [emptyElem] at hfloor
  omega

/-- C1 counterexample: a delete edit aimed at the single paragraph of the
single cell of a one-row table — exactly the cell-floor case — passes
validation: `validate` returns `valid = true`, so the floor is not enforced
by `validate_target_ids` (the edit does reach mutation, where
`_table_delete_paragraph` silently refuses it). -/
theorem cell_paragraph_floor_counterexample :
    (validate c1Analysis [c1Edit]).valid = true
    ∧ c1Edit.action = "delete" ∧ c1Edit.target_id = "b0:r0c0p0"
    ∧ (BlockIndex.tableMeta? ⟨c1Analysis.blocks⟩ "b0").map
        (fun tm => tm.paraCount 0 0) = some 1 := by
  refine ⟨?_, rfl, rfl, ?_⟩
  · have hp : parseTid "b0:r0c0p0" = some (.cellParaT "0" 0 0 0) := by rfl
    have hb : ("b" ++ "0" : String) = "b0" := rfl
    simp [validate, validate_target_ids, validate_semantic_tags,
      validate_style_aliases, validate_table_fields, validate_newlines,
      validate_column_counts, validate_runs, issuesForTargetId, hp, hb,
      BlockIndex.tableMeta?, BlockIndex.idLookup, BlockIndex.sdtParaCount?,
      mkTableMeta, descTags, descList, childTags, Xml.children, Xml.tag,
      c1Analysis, c1Edit, c1Table, TableMeta.paraCount]
  · simp [BlockIndex.tableMeta?, BlockIndex.idLookup, c1Analysis, mkTableMeta,
      descTags, descList, childTags, Xml.children, Xml.tag, c1Table,
      TableMeta.paraCount]

/-- Witness for `cell_paragraph_floor_at_mutation`: deleting paragraph 0 of
cell (0,0) of the concrete one-paragraph table is a no-op. -/
theorem cell_paragraph_floor_at_mutation_witness :
    (childTags "w:p" ((descTags "w:tc"
        ((descTags "w:tr" c1Table).getD 0 emptyElem)).getD 0 emptyElem)).length ≤ 1
    ∧ _table_delete_paragraph ⟨"<w:tbl><w:tr><w:tc><w:p/></w:tc></w:tr></w:tbl>",
        some c1Table⟩ 0 0 0
      = ⟨"<w:tbl><w:tr><w:tc><w:p/></w:tc></w:tr></w:tbl>", some c1Table⟩ :=
  ⟨by simp [descTags, descList, childTags, Xml.children, Xml.tag, c1Table,
      emptyElem],
   cell_paragraph_floor_at_mutation _ c1Table 0 0 0 rfl
     (by simp [descTags, descList, childTags, Xml.children, Xml.tag, c1Table,
        emptyElem])⟩

/-! ## C2 — bounds checking by action kind -/

/-- `tableMeta? = some` forces a successful id lookup. -/
theorem idLookup_of_tableMeta (idx : BlockIndex) (bid : String) (tm : TableMeta)
    (h : idx.tableMeta? bid = some tm) : (idx.idLookup bid).isNone = false := by
  unfold BlockIndex.tableMeta? at h
  cases hl : idx.idLookup bid with
  | none => rw [hl] at h; simp at h
  | some b => simp

/-- `sdtParaCount? = some` forces a successful id lookup. -/
theorem idLookup_of_sdtParaCount (idx : BlockIndex) (bid : String) (pc : Nat)
    (h : idx.sdtParaCount? bid = some pc) : (idx.idLookup bid).isNone = false := by
  unfold BlockIndex.sdtParaCount? at h
  cases hl : idx.idLookup bid with
  | none => rw [hl] at h; simp at h
  | some b => simp

/-- Every issue `issuesForTargetId` produces is an error, never a warning. -/
theorem issuesForTargetId_error (idx : BlockIndex) (i : Nat) (edit : Edit) :
    ∀ iss ∈ issuesForTargetId idx i edit, iss.level = "error" := by
  intro iss hmem
  simp only [issuesForTargetId] at hmem
  repeat' split at hmem
  all_goals simp_all [mkErr]

/-- A nonempty target-id issue list for any edit of the batch makes the
whole validation fail. -/
theorem valid_false_of_issue (analysis : Analysis) (edits : List Edit)
    (i : Nat) (edit : Edit) (hmem : (i, edit) ∈ edits.enum)
    (hne : issuesForTargetId ⟨analysis.blocks⟩ i edit ≠ []) :
    (validate analysis edits).valid = false := by
  obtain ⟨iss, hiss⟩ : ∃ iss, iss ∈ issuesForTargetId ⟨analysis.blocks⟩ i edit :=
    List.exists_mem_of_ne_nil _ hne
  have hlevel := issuesForTargetId_error ⟨analysis.blocks⟩ i edit iss hiss
  have htgt : iss ∈ validate_target_ids edits ⟨analysis.blocks⟩ := by
    unfold validate_target_ids
    rw [List.mem_flatten]
    exact ⟨issuesForTargetId ⟨analysis.blocks⟩ i edit,
      List.mem_map_of_mem (fun p => issuesForTargetId ⟨analysis.blocks⟩ p.1 p.2)
        hmem, hiss⟩
  unfold validate
  have hall : iss ∈
      validate_target_ids edits ⟨analysis.blocks⟩
      ++ validate_semantic_tags edits ⟨analysis.blocks⟩
      ++ validate_style_aliases edits analysis.style_alias_map
      ++ validate_table_fields edits ⟨analysis.blocks⟩
      ++ validate_newlines edits
      ++ validate_column_counts edits ⟨analysis.blocks⟩
      ++ validate_runs edits analysis.style_alias_map
          analysis.paragraph_style_templates := by
    simp only [List.mem_append]
    exact Or.inl (Or.inl (Or.inl (Or.inl (Or.inl (Or.inl htgt)))))
  have hfil : iss ∈ (validate_target_ids edits ⟨analysis.blocks⟩
      ++ validate_semantic_tags edits ⟨analysis.blocks⟩
      ++ validate_style_aliases edits analysis.style_alias_map
      ++ validate_table_fields edits ⟨analysis.blocks⟩
      ++ validate_newlines edits
      ++ validate_column_counts edits ⟨analysis.blocks⟩
      ++ validate_runs edits analysis.style_alias_map
          analysis.paragraph_style_templates).filter
        (fun iss => iss.level != "warning") := by
    rw [List.mem_filter]
    exact ⟨hall, by simp [hlevel]⟩
  simp only []
  rw [List.isEmpty_eq_false_iff_exists_mem]
  exact ⟨iss, hfil⟩

/-- C2 (amended): out-of-range coordinates are rejected by validation before
any mutation — but only for these action/coordinate combinations: a row
coordinate `b{N}:r{R}` with `R ≥ row_count` for actions other than
`insert_after`/`insert_before`; a cell coordinate `b{N}:r{R}c{C}` and a cell
paragraph coordinate `b{N}:r{R}c{C}p{P}` for every action; a column
coordinate `b{N}:c{C}` for `delete`; and an SDT paragraph coordinate
`b{N}:p{P}` for every action.  In each such case `validate` returns
`valid = false`.  (Row coordinates under `insert_after`/`insert_before` are
not bounds-checked: see the counterexample.) -/
theorem out_of_range_coordinates_rejected (analysis : Analysis)
    (edits : List Edit) (i : Nat) (edit : Edit)
    (hmem : (i, edit) ∈ edits.enum) :
    (∀ bs r tm, parseTid edit.target_id = some (.rowT bs r) →
        BlockIndex.tableMeta? ⟨analysis.blocks⟩ ("b" ++ bs) = some tm →
        edit.action ≠ "insert_after" → edit.action ≠ "insert_before" →
        r ≥ tm.row_count →
        (validate analysis edits).valid = false)
    ∧ (∀ bs r c tm, parseTid edit.target_id = some (.cellT bs r c) →
        BlockIndex.tableMeta? ⟨analysis.blocks⟩ ("b" ++ bs) = some tm →
        (r ≥ tm.row_count ∨ c ≥ tm.col_counts.getD r 0) →
        (validate analysis edits).valid = false)
    ∧ (∀ bs r c p tm, parseTid edit.target_id = some (.cellParaT bs r c p) →
        BlockIndex.tableMeta? ⟨analysis.blocks⟩ ("b" ++ bs) = some tm →
        (r ≥ tm.row_count ∨ c ≥ tm.col_counts.getD r 0 ∨ p ≥ tm.paraCount r c) →
        (validate analysis edits).valid = false)
    ∧ (∀ bs c tm, parseTid edit.target_id = some (.colT bs c) →
        BlockIndex.tableMeta? ⟨analysis.blocks⟩ ("b" ++ bs) = some tm →
        edit.action = "delete" → c ≥ tm.col_counts.headD 0 →
        (validate analysis edits).valid = false)
    ∧ (∀ bs p pc, parseTid edit.target_id = some (.sdtParaT bs p) →
        BlockIndex.sdtParaCount? ⟨analysis.blocks⟩ ("b" ++ bs) = some pc →
        p ≥ pc →
        (validate analysis edits).valid = false) := by
  refine ⟨?_, ?_, ?_, ?_, ?_⟩
  · intro bs r tm hparse hmeta ha hb hr
    apply valid_false_of_issue analysis edits i edit hmem
    have hlook := idLookup_of_tableMeta _ _ _ hmeta
    by_cases hd : edit.action = "delete"
    · simp [issuesForTargetId, hparse, hmeta, hlook, hd, hr, mkErr]
    · simp [issuesForTargetId, hparse, hmeta, hlook, hd, ha, hb, hr, mkErr]
  · intro bs r c tm hparse hmeta hout
    apply valid_false_of_issue analysis edits i edit hmem
    simp only [issuesForTargetId, hparse, hmeta]
    by_cases hr : r ≥ tm.row_count
    · rw [if_pos hr]; simp
    · have hc : c ≥ tm.col_counts.getD r 0 := hout.resolve_left hr
      rw [if_neg hr, if_pos hc]; simp
  · intro bs r c p tm hparse hmeta hout
    apply valid_false_of_issue analysis edits i edit hmem
    simp only [issuesForTargetId, hparse, hmeta]
    by_cases hr : r ≥ tm.row_count
    · rw [if_pos hr]; simp
    · by_cases hc : c ≥ tm.col_counts.getD r 0
      · rw [if_neg hr, if_pos hc]; simp
      · have hp : p ≥ tm.paraCount r c := by
          rcases hout with h | h | h
          · exact absurd h hr
          · exact absurd h hc
          · exact h
        rw [if_neg hr, if_neg hc, if_pos hp]; simp
  · intro bs c tm hparse hmeta hd hc
    apply valid_false_of_issue analysis edits i edit hmem
    simp [issuesForTargetId, hparse, hmeta, hd, mkErr]
    simpa using hc
  · intro bs p pc hparse hpc hp
    apply valid_false_of_issue analysis edits i edit hmem
    have hlook := idLookup_of_sdtParaCount _ _ _ hpc
    simp [issuesForTargetId, hparse, hpc, hlook, hp, mkErr]

/-- A 1-row table analysis whose alias map knows the row/cell style aliases
the counterexample edit uses. -/
def c2Analysis : Analysis :=
  { blocks := [{ id := "b0", type := "tbl",
                 xml := ⟨"<w:tbl><w:tr><w:tc><w:p/></w:tc></w:tr></w:tbl>",
                         some (Xml.mk "w:tbl" [] none
                           [Xml.mk "w:tr" [] none
                             [Xml.mk "w:tc" [] none [Xml.mk "w:p" [] none []]]])⟩,
                 semantic_tag := "TBL", style_key := "T1" }],
    style_alias_map := [("RS0", ⟨"rs", none⟩), ("CS0", ⟨"cs", none⟩)] }

/-- A row insertion aimed five rows past the end of the 1-row table. -/
def c2Edit : Edit :=
  { action := "insert_after", target_id := "b0:r5", semantic_tag := "TBL",
    edit_unit := "row", new_text := "X",
    row_style_aliases := ["RS0"], cell_style_aliases := [.listE ["CS0"]] }

/-- A replace aimed five columns past the end of the single-cell row. -/
def c2WEdit : Edit :=
  { action := "replace", target_id := "b0:r0c5", semantic_tag := "TBL",
    edit_unit := "cell", new_text := "Y" }

/-- C2 counterexample: a row-insert edit whose row coordinate is out of
range (row 5 of a one-row table) passes validation — `validate` returns
`valid = true` — because the row branch of `validate_target_ids` skips the
bounds check when the action is `insert_after`/`insert_before`, so the
claim's "regardless of its action" is wrong. -/
theorem out_of_range_row_insert_counterexample :
    c2Edit.action = "insert_after"
    ∧ parseTid c2Edit.target_id = some (.rowT "0" 5)
    ∧ (BlockIndex.tableMeta? ⟨c2Analysis.blocks⟩ "b0").map TableMeta.row_count
        = some 1
    ∧ (validate c2Analysis [c2Edit]).valid = true := by
  refine ⟨rfl, rfl, ?_, ?_⟩
  · simp [BlockIndex.tableMeta?, BlockIndex.idLookup, c2Analysis, mkTableMeta,
      descTags, descList, childTags, Xml.children, Xml.tag]
  · have hp : parseTid "b0:r5" = some (.rowT "0" 5) := by rfl
    have hb : ("b" ++ "0" : String) = "b0" := rfl
    simp [validate, validate_target_ids, validate_semantic_tags,
      validate_style_aliases, validate_table_fields, validate_newlines,
      validate_column_counts, validate_runs, issuesForTargetId, hp, hb,
      BlockIndex.tableMeta?, BlockIndex.idLookup, BlockIndex.sdtParaCount?,
      mkTableMeta, descTags, descList, childTags, Xml.children, Xml.tag,
      c2Analysis, c2Edit, TableMeta.paraCount, PARAGRAPH_TAGS, TABLE_TAG,
      strContains, pySplit, splitCharsF]

/-- Witness for `out_of_range_coordinates_rejected`: a `replace` aimed at
cell (0,5) of the one-cell row is rejected — `validate` returns false. -/
theorem out_of_range_coordinates_rejected_witness :
    ((0 : Nat), c2WEdit) ∈ [c2WEdit].enum
    ∧ parseTid c2WEdit.target_id = some (.cellT "0" 0 5)
    ∧ BlockIndex.tableMeta? ⟨c2Analysis.blocks⟩ ("b" ++ "0") = some ⟨1, [1], [[1]]⟩
    ∧ ((0 : Nat) ≥ (1 : Nat) ∨ (5 : Nat) ≥ (([1] : List Nat).getD 0 0))
    ∧ (validate c2Analysis [c2WEdit]).valid = false := by
  have hmeta : BlockIndex.tableMeta? ⟨c2Analysis.blocks⟩ ("b" ++ "0")
      = some ⟨1, [1], [[1]]⟩ := by
    simp [BlockIndex.tableMeta?, BlockIndex.idLookup, c2Analysis, mkTableMeta,
      descTags, descList, childTags, Xml.children, Xml.tag]
  have hmem : ((0 : Nat), c2WEdit) ∈ [c2WEdit].enum := by simp
  refine ⟨hmem, rfl, hmeta, Or.inr (by decide), ?_⟩
  exact (out_of_range_coordinates_rejected c2Analysis [c2WEdit] 0 c2WEdit
      hmem).2.1 "0" 0 5 ⟨1, [1], [[1]]⟩ rfl hmeta (Or.inr (by decide))
